import Mathlib

/-!
Verification of the DIM loadout-builder mod-assignment solver
(`src/app/loadout-builder/mod-utils.ts`).

The embedding models the solver's data and control flow directly:

* `EnergyType` mirrors `DestinyEnergyType` (the wildcard `Any` is `.any`).
* `PluggableMod` keeps exactly the fields the solver reads (`plug.plugCategoryHash`,
  `plug.energyCost`) plus the definition `hash`, which the solver never reads
  but which distinguishes physically different mods that are functionally
  identical.
* `Item` keeps `id`, `bucket.hash` and the optional `energy` descriptor.
* External collaborators (manifest definitions, upgrade-spend-tier policy,
  socket metadata, the static category tables and the permutation generator,
  all imported by `mod-utils.ts` from elsewhere) are fields of `Env`, so every
  theorem quantifies over their behaviour.
* JavaScript `Map`s / keyed objects are association lists (`mapGet`, `mapSet`,
  `mapPush`, `keyByMap`) with JS insertion-order/overwrite semantics.
* JavaScript number-to-string interpolation is decimal rendering (`natRepr`,
  `intRepr`); `undefined` interpolates to the string "undefined".
* Energy costs are `Int` (JS numbers may be negative; nothing in the solver
  restricts their sign).
-/

/-- `DestinyEnergyType` from `bungie-api-ts`: `Any = 0`, `Arc = 1`,
`Thermal = 2`, `Void = 3`, `Ghost = 4`, `Subclass = 5`, `Stasis = 6`. -/
inductive EnergyType where
  | any
  | arc
  | thermal
  | void
  | ghost
  | subclass
  | stasis
deriving DecidableEq, Fintype

/-- The numeric value of the `DestinyEnergyType` enum member (used when a mod
is stringified, since JS interpolates the enum as its number). -/
def EnergyType.toNat : EnergyType → Nat
  | .any => 0
  | .arc => 1
  | .thermal => 2
  | .void => 3
  | .ghost => 4
  | .subclass => 5
  | .stasis => 6

/-- `mod.plug.energyCost`: a resource type together with an amount. -/
structure EnergyCost where
  energyType : EnergyType
  energyCost : Int
deriving DecidableEq

/-- A pluggable mod. `hash` stands for all the definition fields the solver
never reads (two distinct mods can agree on category and cost). -/
structure PluggableMod where
  hash : Nat
  plugCategoryHash : Nat
  energyCost : Option EnergyCost
deriving DecidableEq

/-- An armour item: its stable id, its bucket hash, and the optional energy
descriptor (`item.energy`, of which the solver reads only `energyType`). -/
structure Item where
  id : Nat
  bucketHash : Nat
  energy : Option EnergyType
deriving DecidableEq

/-- One entry of `getSpecialtySocketMetadatas(item)`: the solver reads only
`compatibleModTags`. -/
structure SocketMetadata where
  compatibleModTags : List Nat
deriving DecidableEq

/-- The per-item resource state seeded before the search (`itemEnergies`). -/
structure ItemEnergy where
  used : Int
  capacity : Int
  type : EnergyType
deriving DecidableEq

/-- The external collaborators of `mod-utils.ts`, bundled with the `defs` and
`upgradeSpendTier` arguments they close over:

* `generalHash` is `armor2PlugCategoryHashesByName.general`;
* `combatHashes` is `combatCompatiblePlugCategoryHashes`;
* `raidHashes` is `raidModPlugCategoryHashes`;
* `bucketsToCategories` is the bucket-hash to plug-category table;
* `canSwap item` is `canSwapEnergyFromUpgradeSpendTier(defs, upgradeSpendTier, item)`;
* `maxEnergy item` is `upgradeSpendTierToMaxEnergy(defs, upgradeSpendTier, item)`;
* `modTypeTag` is `getModTypeTagByPlugCategoryHash`;
* `socketMetadatas` is `getSpecialtySocketMetadatas`;
* `permute` is `generatePermutationsOfFive`. -/
structure Env where
  generalHash : Nat
  combatHashes : List Nat
  raidHashes : List Nat
  bucketsToCategories : Nat → Option Nat
  canSwap : Item → Bool
  maxEnergy : Item → Int
  modTypeTag : Nat → Option Nat
  socketMetadatas : Item → Option (List SocketMetadata)
  permute : List PluggableMod → (List (Option PluggableMod) → String) → List (List (Option PluggableMod))

/-- A permutation: one way of laying up to five mods over the five positions
(the generator pads unused positions with `null`). -/
abbrev Perm := List (Option PluggableMod)

/-- Lookup in a JS `Map` / keyed object modelled as an association list. -/
def mapGet (m : List (Nat × α)) (k : Nat) : Option α :=
  (m.find? (fun kv => kv.1 == k)).map (·.2)

/-- `Map.set` / keyed-object write: overwrite in place, else append. -/
def mapSet (m : List (Nat × α)) (k : Nat) (v : α) : List (Nat × α) :=
  if m.any (fun kv => kv.1 == k) then
    m.map (fun kv => if kv.1 == k then (k, v) else kv)
  else
    m ++ [(k, v)]

/-- `assignments.get(k)?.push(v)`: append to the entry's list if the key is
present, otherwise do nothing. -/
def mapPush (m : List (Nat × List PluggableMod)) (k : Nat) (v : PluggableMod) : List (Nat × List PluggableMod) :=
  m.map (fun kv => if kv.1 == k then (kv.1, kv.2 ++ [v]) else kv)

/-- `_.mapValues(_.keyBy(items, i => i.id), f)`: key each item by its id
(later duplicates overwrite earlier ones, keeping the original position) and
store `f item`. -/
def keyByMap (items : List Item) (f : Item → α) : List (Nat × α) :=
  items.foldl (fun m item => mapSet m item.id (f item)) []

/-- `mod.plug.energyCost?.energyCost || 0`. -/
def modCostD (m : PluggableMod) : Int :=
  (m.energyCost.map (·.energyCost)).getD 0

/-- `mod.plug.energyCost?.energyType || DestinyEnergyType.Any` (the enum value
`Any` is `0` and hence falsy, so the default cannot be told apart from a
genuine `Any`). -/
def modTypeD (m : PluggableMod) : EnergyType :=
  (m.energyCost.map (·.energyType)).getD .any

/-- `perm?.[i]?.plug.energyCost?.energyCost || 0`: out-of-range and `null`
entries cost nothing. -/
def optModCost (om : Option PluggableMod) : Int :=
  (om.map modCostD).getD 0

/-- `perm?.[i]?.plug.energyCost?.energyType || DestinyEnergyType.Any`. -/
def optModType (om : Option PluggableMod) : EnergyType :=
  (om.map modTypeD).getD .any

/-- Decimal digit character, `Char.ofNat (48 + d)`. -/
def digitChar (d : Nat) : Char :=
  Char.ofNat (48 + d)

/-- Decimal rendering of a natural number, as JS renders numbers. -/
def natRepr (n : Nat) : List Char :=
  if n < 10 then
    [digitChar n]
  else
    natRepr (n / 10) ++ [digitChar (n % 10)]
decreasing_by
  exact Nat.div_lt_self (by omega) (by omega)

/-- Decimal rendering of an integer, as JS renders numbers. -/
def intRepr (i : Int) : List Char :=
  if i < 0 then '-' :: natRepr i.natAbs else natRepr i.toNat

/-- JS string interpolation of `energy?.energyType`. -/
def energyTypeStr (oc : Option EnergyCost) : String :=
  match oc with
  | none => "undefined"
  | some e => String.mk (natRepr e.energyType.toNat)

/-- JS string interpolation of `energy?.energyCost`. -/
def energyCostStr (oc : Option EnergyCost) : String :=
  match oc with
  | none => "undefined"
  | some e => String.mk (intRepr e.energyCost)

/-- `stringifyMods` from `mod-utils.ts`: per position, append
`(${energy?.energyType},${energy?.energyCost},${plugCategoryHash})` when a mod
is present, then always append `,`. -/
def stringifyMods (permutation : List (Option PluggableMod)) : String :=
  permutation.foldl
    (fun permutationString modOrNull =>
      (match modOrNull with
       | some m =>
         permutationString ++ "(" ++ energyTypeStr m.energyCost ++ "," ++
           energyCostStr m.energyCost ++ "," ++ String.mk (natRepr m.plugCategoryHash) ++ ")"
       | none => permutationString) ++ ",")
    ""

/-- `someModHasEnergyRequirement` from `mod-utils.ts`:
`mods.some(mod => !mod.plug.energyCost || mod.plug.energyCost.energyType !== Any)`. -/
def someModHasEnergyRequirement (mods : List PluggableMod) : Bool :=
  mods.any fun m =>
    match m.energyCost with
    | none => true
    | some e => e.energyType != .any

/-- `doEnergiesMatch` from `mod-utils.ts`: item is Armour 2.0 (has `energy`)
and the mod has no cost, or an `Any`-typed cost, or a matching cost type, or
the policy allows swapping the item's energy. -/
def doEnergiesMatch (env : Env) (m : PluggableMod) (item : Item) : Bool :=
  match item.energy with
  | none => false
  | some itemType =>
    match m.energyCost with
    | none => true
    | some e =>
      e.energyType == .any || e.energyType == itemType || env.canSwap item

/-- The mutual type compatibility rule used by the search's pairwise checks:
`a == b || a == Any || b == Any`. -/
def energyTypesCompatible (a b : EnergyType) : Bool :=
  a == b || a == .any || b == .any

/-- `for (const item of items) assignments.set(item.id, [])`. -/
def initialAssignments (items : List Item) : List (Nat × List PluggableMod) :=
  items.foldl (fun m item => mapSet m item.id ([] : List PluggableMod)) []

/-- One iteration of the partition loop of `getModAssignments`: a mod is
classified as general, combat, raid, or committed to the first item whose
bucket category equals the mod's plug category (and silently dropped when no
item matches). The state is `(generalMods, combatMods, raidMods, assignments)`. -/
def partitionStep (env : Env) (items : List Item)
    (st : List PluggableMod × List PluggableMod × List PluggableMod × List (Nat × List PluggableMod)) (m : PluggableMod) :
    List PluggableMod × List PluggableMod × List PluggableMod × List (Nat × List PluggableMod) :=
  if m.plugCategoryHash == env.generalHash then
    (st.1 ++ [m], st.2.1, st.2.2.1, st.2.2.2)
  else if env.combatHashes.contains m.plugCategoryHash then
    (st.1, st.2.1 ++ [m], st.2.2.1, st.2.2.2)
  else if env.raidHashes.contains m.plugCategoryHash then
    (st.1, st.2.1, st.2.2.1 ++ [m], st.2.2.2)
  else
    match items.find? (fun item => env.bucketsToCategories item.bucketHash == some m.plugCategoryHash) with
    | some itemForMod => (st.1, st.2.1, st.2.2.1, mapPush st.2.2.2 itemForMod.id m)
    | none => st

/-- The whole partition phase of `getModAssignments`. -/
def partitionMods (env : Env) (items : List Item) (mods : List PluggableMod) :
    List PluggableMod × List PluggableMod × List PluggableMod × List (Nat × List PluggableMod) :=
  mods.foldl (partitionStep env items) ([], [], [], initialAssignments items)

/-- `itemSocketMetadata`: each item id mapped to `getSpecialtySocketMetadatas(item)`. -/
def itemSocketMetadata (env : Env) (items : List Item) :
    List (Nat × Option (List SocketMetadata)) :=
  keyByMap items (fun item => env.socketMetadatas item)

/-- `_.sumBy(assignments.get(item.id), mod => mod.plug.energyCost?.energyCost || 0)`. -/
def sumModCosts (l : List PluggableMod) : Int :=
  l.foldl (fun s m => s + modCostD m) 0

/-- `itemEnergies`: per item id, the used energy (sum of the costs of the mods
already committed to it), the capacity from the upgrade-spend-tier policy, and
the type (collapsed to `Any` when the item has no energy or the policy allows
swapping). -/
def itemEnergies (env : Env) (items : List Item)
    (assignments : List (Nat × List PluggableMod)) : List (Nat × ItemEnergy) :=
  keyByMap items (fun item =>
    { used := sumModCosts ((mapGet assignments item.id).getD [])
      capacity := env.maxEnergy item
      type :=
        match item.energy with
        | none => .any
        | some itemType => if env.canSwap item then .any else itemType })

/-- `itemSocketMetadata[item.id]?.some(metadata => metadata.compatibleModTags.includes(tag))`. -/
def socketsAccept (sockets : List (Nat × Option (List SocketMetadata)))
    (id : Nat) (tag : Nat) : Bool :=
  match mapGet sockets id with
  | none => false
  | some none => false
  | some (some metadatas) => metadatas.any (fun md => md.compatibleModTags.contains tag)

/-- The body of `combatItemLoop` at index `i` / item `item`: `true` when this
index does not disqualify the combat permutation. A `null` entry imposes no
constraint; otherwise the seeded energy state must absorb the mod's cost, the
types must be compatible, and the mod's tag must be accepted by the item's
specialty sockets. -/
def combatSlotCheck (env : Env) (energies : List (Nat × ItemEnergy))
    (sockets : List (Nat × Option (List SocketMetadata)))
    (combatP : Perm) (i : Nat) (item : Item) : Bool :=
  match combatP.getD i none with
  | none => true
  | some combatMod =>
    let modTag := env.modTypeTag combatMod.plugCategoryHash
    let combatEnergyCost := modCostD combatMod
    let combatEnergyType := modTypeD combatMod
    let combatEnergyIsValid :=
      match mapGet energies item.id with
      | none => false
      | some itemEnergy =>
        decide (itemEnergy.used + combatEnergyCost ≤ itemEnergy.capacity) &&
          (itemEnergy.type == combatEnergyType ||
            combatEnergyType == .any ||
            itemEnergy.type == .any)
    combatEnergyIsValid &&
      (match modTag with
       | none => false
       | some tag => socketsAccept sockets item.id tag)

/-- The body of `generalItemLoop` at index `i` / item `item`: the cumulative
cost (general plus the combat mod already layered on this item) must fit, the
general mod must be slot-compatible, and mutually compatible with the combat
mod. General mods have no socket-tag requirement. -/
def generalSlotCheck (_env : Env) (energies : List (Nat × ItemEnergy))
    (combatP generalP : Perm) (i : Nat) (item : Item) : Bool :=
  match generalP.getD i none with
  | none => true
  | some generalMod =>
    let generalEnergyCost := modCostD generalMod
    let generalEnergyType := modTypeD generalMod
    let combatEnergyCost := optModCost (combatP.getD i none)
    let combatEnergyType := optModType (combatP.getD i none)
    match mapGet energies item.id with
    | none => false
    | some itemEnergy =>
      decide (itemEnergy.used + generalEnergyCost + combatEnergyCost ≤ itemEnergy.capacity) &&
        (itemEnergy.type == generalEnergyType ||
          generalEnergyType == .any ||
          itemEnergy.type == .any) &&
        energyTypesCompatible generalEnergyType combatEnergyType

/-- The body of `raidItemLoop` at index `i` / item `item`: the cumulative cost
of all three layered mods must fit, the raid mod must be slot-compatible,
mutually compatible with the general and combat mods, and its tag must be
accepted by the item's specialty sockets. -/
def raidSlotCheck (env : Env) (energies : List (Nat × ItemEnergy))
    (sockets : List (Nat × Option (List SocketMetadata)))
    (combatP generalP raidP : Perm) (i : Nat) (item : Item) : Bool :=
  match raidP.getD i none with
  | none => true
  | some raidMod =>
    let modTag := env.modTypeTag raidMod.plugCategoryHash
    let raidEnergyCost := modCostD raidMod
    let raidEnergyType := modTypeD raidMod
    let generalEnergyCost := optModCost (generalP.getD i none)
    let generalEnergyType := optModType (generalP.getD i none)
    let combatEnergyCost := optModCost (combatP.getD i none)
    let combatEnergyType := optModType (combatP.getD i none)
    let raidEnergyIsValid :=
      match mapGet energies item.id with
      | none => false
      | some itemEnergy =>
        decide (itemEnergy.used + generalEnergyCost + combatEnergyCost + raidEnergyCost ≤
            itemEnergy.capacity) &&
          (itemEnergy.type == raidEnergyType ||
            raidEnergyType == .any ||
            itemEnergy.type == .any) &&
          energyTypesCompatible raidEnergyType generalEnergyType &&
          energyTypesCompatible raidEnergyType combatEnergyType
    raidEnergyIsValid &&
      (match modTag with
       | none => false
       | some tag => socketsAccept sockets item.id tag)

/-- The labelled-continue control flow of the item loops: run the per-index
check index by index and bail out at the first failure. -/
def forAllStopFirst (f : α → Bool) : List α → Bool
  | [] => true
  | x :: xs => if f x then forAllStopFirst f xs else false

/-- A combat permutation survives `combatItemLoop` (no index triggers
`continue combatModLoop`). -/
def combatPermOk (env : Env) (energies : List (Nat × ItemEnergy))
    (sockets : List (Nat × Option (List SocketMetadata)))
    (items : List Item) (combatP : Perm) : Bool :=
  forAllStopFirst (fun p => combatSlotCheck env energies sockets combatP p.1 p.2) items.enum

/-- A general permutation survives `generalItemLoop` under a given combat
permutation. -/
def generalPermOk (env : Env) (energies : List (Nat × ItemEnergy))
    (items : List Item) (combatP generalP : Perm) : Bool :=
  forAllStopFirst (fun p => generalSlotCheck env energies combatP generalP p.1 p.2) items.enum

/-- A raid permutation survives `raidItemLoop` under given combat and general
permutations. -/
def raidPermOk (env : Env) (energies : List (Nat × ItemEnergy))
    (sockets : List (Nat × Option (List SocketMetadata)))
    (items : List Item) (combatP generalP raidP : Perm) : Bool :=
  forAllStopFirst (fun p => raidSlotCheck env energies sockets combatP generalP raidP p.1 p.2)
    items.enum

/-- The innermost loop over raid permutations: collect, in order, the triples
that reach the `calculate best mod assignment here` point. -/
def raidLoop (rOk : Perm → Perm → Perm → Bool) (combatP generalP : Perm) :
    List Perm → List (Perm × Perm × Perm)
  | [] => []
  | raidP :: rest =>
    (if rOk combatP generalP raidP then [(combatP, generalP, raidP)] else []) ++
      raidLoop rOk combatP generalP rest

/-- The middle loop over general permutations. -/
def generalLoop (gOk : Perm → Perm → Bool) (rOk : Perm → Perm → Perm → Bool)
    (combatP : Perm) (raidPs : List Perm) : List Perm → List (Perm × Perm × Perm)
  | [] => []
  | generalP :: rest =>
    (if gOk combatP generalP then raidLoop rOk combatP generalP raidPs else []) ++
      generalLoop gOk rOk combatP raidPs rest

/-- The outer loop over combat permutations. The three level checks are
parameters so that the early-exit solver and the naive all-checks variant
share this control structure. -/
def searchLoops (cOk : Perm → Bool) (gOk : Perm → Perm → Bool)
    (rOk : Perm → Perm → Perm → Bool) (generalPs raidPs : List Perm) :
    List Perm → List (Perm × Perm × Perm)
  | [] => []
  | combatP :: rest =>
    (if cOk combatP then generalLoop gOk rOk combatP raidPs generalPs else []) ++
      searchLoops cOk gOk rOk generalPs raidPs rest

/-- The triple-nested search of `getModAssignments`, run over given
permutation lists and seeded state: the list of `(combat, general, raid)`
triples that reach the candidate-record point. -/
def searchValidTriples (env : Env) (items : List Item)
    (energies : List (Nat × ItemEnergy))
    (sockets : List (Nat × Option (List SocketMetadata)))
    (combatPs generalPs raidPs : List Perm) : List (Perm × Perm × Perm) :=
  searchLoops (combatPermOk env energies sockets items)
    (generalPermOk env energies items)
    (raidPermOk env energies sockets items)
    generalPs raidPs combatPs

/-- The assignments map produced by the partition phase (the fourth component
of `partitionMods`). -/
def partitionAssignments (env : Env) (items : List Item) (mods : List PluggableMod) :
    List (Nat × List PluggableMod) :=
  (partitionMods env items mods).2.2.2

/-- The seeded per-item energy states, as built by `getModAssignments` right
after partitioning. -/
def seededEnergies (env : Env) (items : List Item) (mods : List PluggableMod) :
    List (Nat × ItemEnergy) :=
  itemEnergies env items (partitionAssignments env items mods)

/-- The full search pipeline of `getModAssignments`: partition, seed the
energy states, generate the three deduplicated permutation lists, and run the
triple-nested search. -/
def searchCandidates (env : Env) (items : List Item) (mods : List PluggableMod) :
    List (Perm × Perm × Perm) :=
  searchValidTriples env items (seededEnergies env items mods)
    (itemSocketMetadata env items)
    (env.permute (partitionMods env items mods).2.1 stringifyMods)
    (env.permute (partitionMods env items mods).1 stringifyMods)
    (env.permute (partitionMods env items mods).2.2.1 stringifyMods)

/-- `getModAssignments` from `mod-utils.ts`. The function partitions the mods
(committing slot-specific ones into `assignments`), seeds the energy states,
generates the permutations and runs the triple-nested search — but the
search's candidates are only ever dropped (the body at the record point is
the comment `calculate best mod assignment here`), so the returned map is the
partition's assignments. -/
def getModAssignments (env : Env) (items : List Item) (mods : List PluggableMod) :
    List (Nat × List PluggableMod) :=
  let _candidates := searchCandidates env items mods
  partitionAssignments env items mods

/-- Modelled from the spec: the naive search variant "evaluates all 5 index
checks at each level before deciding" — every per-index result is computed and
the results are conjoined eagerly, with no early exit. -/
def listAllEager (l : List Bool) : Bool :=
  l.foldr (fun a b => a && b) true

/-- Modelled from the spec: combat-level validity in the naive variant. -/
def combatPermOkNaive (env : Env) (energies : List (Nat × ItemEnergy))
    (sockets : List (Nat × Option (List SocketMetadata)))
    (items : List Item) (combatP : Perm) : Bool :=
  listAllEager (items.enum.map (fun p => combatSlotCheck env energies sockets combatP p.1 p.2))

/-- Modelled from the spec: general-level validity in the naive variant. -/
def generalPermOkNaive (env : Env) (energies : List (Nat × ItemEnergy))
    (items : List Item) (combatP generalP : Perm) : Bool :=
  listAllEager (items.enum.map (fun p => generalSlotCheck env energies combatP generalP p.1 p.2))

/-- Modelled from the spec: raid-level validity in the naive variant. -/
def raidPermOkNaive (env : Env) (energies : List (Nat × ItemEnergy))
    (sockets : List (Nat × Option (List SocketMetadata)))
    (items : List Item) (combatP generalP raidP : Perm) : Bool :=
  listAllEager
    (items.enum.map (fun p => raidSlotCheck env energies sockets combatP generalP raidP p.1 p.2))

/-- Modelled from the spec: the naive "check all 5 then decide" search — the
same three nested loops, each level deciding from the eagerly conjoined
per-index checks. -/
def searchValidTriplesNaive (env : Env) (items : List Item)
    (energies : List (Nat × ItemEnergy))
    (sockets : List (Nat × Option (List SocketMetadata)))
    (combatPs generalPs raidPs : List Perm) : List (Perm × Perm × Perm) :=
  searchLoops (combatPermOkNaive env energies sockets items)
    (generalPermOkNaive env energies items)
    (raidPermOkNaive env energies sockets items)
    generalPs raidPs combatPs

/-- The first classification test of the partition loop:
`mod.plug.plugCategoryHash === armor2PlugCategoryHashesByName.general`. -/
def isGeneralPlug (env : Env) (m : PluggableMod) : Bool :=
  m.plugCategoryHash == env.generalHash

/-- The item the partition loop would commit a slot-specific mod to:
the first item whose bucket category equals the mod's plug category. -/
def slotTargetFor (env : Env) (items : List Item) (m : PluggableMod) : Option Item :=
  items.find? (fun item => env.bucketsToCategories item.bucketHash == some m.plugCategoryHash)

/-- Spec-side characterization: the mod is slot-specific (fails the general,
combat and raid tests, in that order) and the first matching item has id `id`. -/
def committedToId (env : Env) (items : List Item) (id : Nat) (m : PluggableMod) : Bool :=
  !(isGeneralPlug env m) &&
    !(env.combatHashes.contains m.plugCategoryHash) &&
    !(env.raidHashes.contains m.plugCategoryHash) &&
    (match slotTargetFor env items m with
     | some itemForMod => itemForMod.id == id
     | none => false)

/-- Just the assignment-map effect of one partition-loop iteration: buckets
ignored, slot-specific mods pushed onto their item's entry. -/
def commitStep (env : Env) (items : List Item)
    (asg : List (Nat × List PluggableMod)) (m : PluggableMod) : List (Nat × List PluggableMod) :=
  if isGeneralPlug env m || env.combatHashes.contains m.plugCategoryHash ||
      env.raidHashes.contains m.plugCategoryHash then
    asg
  else
    match slotTargetFor env items m with
    | some itemForMod => mapPush asg itemForMod.id m
    | none => asg

/-- The deduplication data of one position of a permutation: per mod, the
`(resource type, resource amount, category tag)` triple, or `none` for an
empty position. -/
def modTriple (om : Option PluggableMod) :
    Option (Option EnergyType × Option Int × Nat) :=
  om.map fun m =>
    (m.energyCost.map (·.energyType), m.energyCost.map (·.energyCost), m.plugCategoryHash)

/-- The characters contributed to the key by the `energyType` field. -/
def fieldTypeChars (ot : Option EnergyType) : List Char :=
  match ot with
  | none => "undefined".data
  | some t => natRepr t.toNat

/-- The characters contributed to the key by the `energyCost` field. -/
def fieldCostChars (oc : Option Int) : List Char :=
  match oc with
  | none => "undefined".data
  | some i => intRepr i

/-- The characters one position contributes to the canonical key. -/
def renderTriple (t : Option (Option EnergyType × Option Int × Nat)) : List Char :=
  match t with
  | none => [',']
  | some (ot, oc, h) =>
    '(' :: (fieldTypeChars ot ++ ',' :: (fieldCostChars oc ++ ',' :: (natRepr h ++ [')', ','])))

/-- Decimal value of a digit string (left inverse of `natRepr`). -/
def valOfDigits (l : List Char) : Nat :=
  l.foldl (fun a c => 10 * a + (c.toNat - 48)) 0

/-- A small concrete environment used by the witnesses. -/
def envW : Env where
  generalHash := 100
  combatHashes := [200]
  raidHashes := [300]
  bucketsToCategories := fun b => if b == 1 then some 400 else none
  canSwap := fun _ => false
  maxEnergy := fun _ => 10
  modTypeTag := fun h => if h == 200 then some 7 else if h == 300 then some 8 else none
  socketMetadatas := fun _ => some [⟨[7, 8]⟩]
  permute := fun _ _ => [[none, none, none, none, none]]

/-- A concrete arc-energy item in bucket 1. -/
def itemW : Item := ⟨1, 1, some .arc⟩

/-- A concrete item without an energy descriptor. -/
def itemNoEnergyW : Item := ⟨2, 9, none⟩

/-- A concrete mod with no energy cost. -/
def modNoCostW : PluggableMod := ⟨500, 0, none⟩

/-- A concrete mod with an `Any`-typed cost. -/
def modAnyW : PluggableMod := ⟨501, 0, some ⟨.any, 3⟩⟩

/-- A concrete slot-specific mod for bucket 1. -/
def modSlotW : PluggableMod := ⟨502, 400, some ⟨.arc, 4⟩⟩

/-- A concrete slot-specific mod with a negative cost. -/
def modNegW : PluggableMod := ⟨504, 400, some ⟨.arc, -2⟩⟩

/-- A concrete mod matching no category and no item bucket. -/
def modDropW : PluggableMod := ⟨503, 999, some ⟨.arc, 1⟩⟩

/-- The all-empty permutation. -/
def permNoneW : Perm := [none, none, none, none, none]

/-- Two distinct mods sharing one `(type, amount, categoryTag)` triple. -/
def modDupAW : PluggableMod := ⟨600, 777, some ⟨.thermal, 5⟩⟩

/-- See `modDupAW`. -/
def modDupBW : PluggableMod := ⟨601, 777, some ⟨.thermal, 5⟩⟩

/-- A length-5 arrangement holding the two duplicate mods. -/
def arrangementW : Perm := [some modDupAW, some modDupBW, none, none, none]

/-- `arrangementW` with the two duplicate mods swapped. -/
def arrangementSwappedW : Perm := [some modDupBW, some modDupAW, none, none, none]

/-- Four concrete items (a malformed input: not five slots). -/
def itemsFourW : List Item := [⟨1, 1, some .arc⟩, ⟨2, 9, none⟩, ⟨3, 9, none⟩, ⟨4, 9, none⟩]

/-- A combat permutation that fails its item loop at index 0 when no energy
state is seeded for the item. -/
def cFailW : Perm := [some modAnyW, none, none, none, none]

/-! ## Generic lemmas about the embedded containers and loops -/

theorem forAllStopFirst_eq_true_iff (f : α → Bool) (l : List α) :
    forAllStopFirst f l = true ↔ ∀ x ∈ l, f x = true := by
  induction l with
  | nil => simp [forAllStopFirst]
  | cons x xs ih =>
    by_cases h : f x = true <;> simp [forAllStopFirst, h, ih]

theorem forAllStopFirst_eq_listAllEager (f : α → Bool) (l : List α) :
    forAllStopFirst f l = listAllEager (l.map f) := by
  induction l with
  | nil => rfl
  | cons x xs ih =>
    by_cases h : f x = true <;> simp [forAllStopFirst, listAllEager, h, ih]

theorem mem_raidLoop {rOk : Perm → Perm → Perm → Bool} {c g c' g' r' : Perm}
    {rs : List Perm} :
    (c', g', r') ∈ raidLoop rOk c g rs ↔
      c' = c ∧ g' = g ∧ r' ∈ rs ∧ rOk c g r' = true := by
  induction rs with
  | nil => simp [raidLoop]
  | cons x xs ih =>
    by_cases h : rOk c g x = true <;>
      simp [raidLoop, h, ih, Prod.ext_iff] <;> aesop

theorem mem_generalLoop {gOk : Perm → Perm → Bool} {rOk : Perm → Perm → Perm → Bool}
    {c c' g' r' : Perm} {rPs : List Perm} {gs : List Perm} :
    (c', g', r') ∈ generalLoop gOk rOk c rPs gs ↔
      c' = c ∧ g' ∈ gs ∧ gOk c g' = true ∧ r' ∈ rPs ∧ rOk c g' r' = true := by
  induction gs with
  | nil => simp [generalLoop]
  | cons x xs ih =>
    by_cases h : gOk c x = true <;>
      simp [generalLoop, h, ih, mem_raidLoop] <;> aesop

theorem mem_searchLoops {cOk : Perm → Bool} {gOk : Perm → Perm → Bool}
    {rOk : Perm → Perm → Perm → Bool} {c g r : Perm} {gPs rPs cPs : List Perm} :
    (c, g, r) ∈ searchLoops cOk gOk rOk gPs rPs cPs ↔
      c ∈ cPs ∧ cOk c = true ∧ g ∈ gPs ∧ gOk c g = true ∧
        r ∈ rPs ∧ rOk c g r = true := by
  induction cPs with
  | nil => simp [searchLoops]
  | cons x xs ih =>
    by_cases h : cOk x = true <;>
      simp [searchLoops, h, ih, mem_generalLoop] <;> aesop

theorem mapGet_nil (k : Nat) : mapGet ([] : List (Nat × α)) k = none := rfl

theorem mapGet_cons (kv : Nat × α) (m : List (Nat × α)) (k : Nat) :
    mapGet (kv :: m) k = if kv.1 == k then some kv.2 else mapGet m k := by
  by_cases h : kv.1 == k
  · simp [mapGet, List.find?_cons_of_pos, h]
  · simp only [Bool.not_eq_true] at h
    simp [mapGet, List.find?_cons_of_neg, h]

theorem mapGet_transform (m : List (Nat × α)) (k k' : Nat) (v : α) :
    mapGet (m.map (fun kv => if kv.1 = k then (k, v) else kv)) k' =
      if k' = k then (if m.any (fun kv => kv.1 == k) then some v else none)
      else mapGet m k' := by
  induction m with
  | nil => by_cases h : k' = k <;> simp [mapGet, h]
  | cons kv m ih =>
    by_cases h1 : kv.1 = k
    · by_cases h2 : k' = k
      · subst h2
        simp [mapGet_cons, h1, ih]
      · have h3 : kv.1 ≠ k' := by omega
        have h2s : ¬ k = k' := fun hh => h2 hh.symm
        simp [mapGet_cons, h1, h2, h2s, h3, ih]
    · by_cases h3 : kv.1 = k'
      · have h2 : k' ≠ k := by omega
        simp [mapGet_cons, h1, h2, h3, ih]
      · have hb : (kv.1 == k) = false := by simpa using h1
        simp [mapGet_cons, h1, h3, ih, hb]
        exact if_congr Iff.rfl (if_congr (by simp [hb]) rfl rfl) rfl

theorem mapGet_append_single (m : List (Nat × α)) (k k' : Nat) (v : α) :
    mapGet (m ++ [(k, v)]) k' =
      match mapGet m k' with
      | some w => some w
      | none => if k == k' then some v else none := by
  induction m with
  | nil => simp [mapGet_cons, mapGet_nil]
  | cons kv m ih =>
    by_cases h : kv.1 == k' <;> simp [mapGet_cons, h, ih]

theorem mapGet_eq_none_of_not_any (m : List (Nat × α)) (k : Nat)
    (h : ¬ m.any (fun kv => kv.1 == k) = true) : mapGet m k = none := by
  induction m with
  | nil => rfl
  | cons kv m ih =>
    simp only [List.any_cons, Bool.or_eq_true] at h
    push_neg at h
    simp [mapGet_cons, h.1, ih h.2]

theorem mapGet_mapSet (m : List (Nat × α)) (k k' : Nat) (v : α) :
    mapGet (mapSet m k v) k' = if k' = k then some v else mapGet m k' := by
  unfold mapSet
  by_cases hany : m.any (fun kv => kv.1 == k) = true
  · rw [if_pos hany]
    have hfun : (fun (kv : Nat × α) => if kv.1 == k then (k, v) else kv) =
        (fun kv => if kv.1 = k then (k, v) else kv) := by
      funext kv
      by_cases h : kv.1 = k <;> simp [h]
    rw [hfun, mapGet_transform, if_pos hany]
  · rw [if_neg hany, mapGet_append_single]
    by_cases h : k' = k
    · subst h
      rw [mapGet_eq_none_of_not_any m k' hany]
      simp
    · cases hm : mapGet m k' <;> simp [h, Ne.symm h, hm]

theorem mapPush_cons (kv : Nat × List PluggableMod) (m : List (Nat × List PluggableMod))
    (k : Nat) (v : PluggableMod) :
    mapPush (kv :: m) k v =
      (if kv.1 == k then (kv.1, kv.2 ++ [v]) else kv) :: mapPush m k v := rfl

theorem mapGet_mapPush (m : List (Nat × List PluggableMod)) (k k' : Nat)
    (v : PluggableMod) :
    mapGet (mapPush m k v) k' =
      (mapGet m k').map (fun l => if k' = k then l ++ [v] else l) := by
  induction m with
  | nil => simp [mapPush, mapGet_nil]
  | cons kv m ih =>
    by_cases h1 : kv.1 = k
    · by_cases h2 : k' = k
      · subst h2
        simp [mapPush_cons, mapGet_cons, h1, ih]
      · have h3 : kv.1 ≠ k' := by omega
        have h2s : ¬ k = k' := fun hh => h2 hh.symm
        simp [mapPush_cons, mapGet_cons, h1, h2, h2s, h3, ih]
    · by_cases h3 : kv.1 = k'
      · have h2 : k' ≠ k := by omega
        simp [mapPush_cons, mapGet_cons, h1, h2, h3]
      · simp [mapPush_cons, mapGet_cons, h1, h3, ih]

theorem mapPush_keys (m : List (Nat × List PluggableMod)) (k : Nat) (v : PluggableMod) :
    (mapPush m k v).map (·.1) = m.map (·.1) := by
  induction m with
  | nil => rfl
  | cons kv m ih =>
    by_cases h : kv.1 = k <;> simp [mapPush, h, ih] <;>
      simpa [mapPush] using ih

theorem mapGet_foldl_mapSet_untouched (items : List Item) (f : Item → α)
    (acc : List (Nat × α)) (id : Nat) (h : ∀ it ∈ items, it.id ≠ id) :
    mapGet (items.foldl (fun m item => mapSet m item.id (f item)) acc) id =
      mapGet acc id := by
  induction items generalizing acc with
  | nil => rfl
  | cons it items ih =>
    simp only [List.foldl_cons]
    rw [ih _ (fun x hx => h x (List.mem_cons_of_mem _ hx)), mapGet_mapSet]
    have hne : id ≠ it.id := fun hh => h it (List.mem_cons_self it items) hh.symm
    rw [if_neg hne]

theorem mapGet_foldl_mapSet_nodup (items : List Item) (f : Item → α) :
    ∀ acc : List (Nat × α), (items.map (·.id)).Nodup → ∀ item ∈ items,
      mapGet (items.foldl (fun m it => mapSet m it.id (f it)) acc) item.id =
        some (f item) := by
  induction items with
  | nil =>
    intro acc _ item hm
    cases hm
  | cons it items ih =>
    intro acc hnd item hm
    simp only [List.map_cons, List.nodup_cons] at hnd
    simp only [List.foldl_cons]
    rcases List.mem_cons.mp hm with h | h
    · subst h
      rw [mapGet_foldl_mapSet_untouched items f _ item.id ?_]
      · rw [mapGet_mapSet, if_pos rfl]
      · intro x hx he
        exact hnd.1 (he ▸ List.mem_map_of_mem (fun i => i.id) hx)
    · exact ih _ hnd.2 item h

theorem mapGet_keyByMap_of_nodup (items : List Item) (f : Item → α)
    (hnd : (items.map (·.id)).Nodup) (item : Item) (hm : item ∈ items) :
    mapGet (keyByMap items f) item.id = some (f item) :=
  mapGet_foldl_mapSet_nodup items f [] hnd item hm

theorem mapGet_foldl_mapSet_pres (items : List Item) (f : Item → α)
    (acc : List (Nat × α)) (id : Nat) (h : (mapGet acc id).isSome = true) :
    (mapGet (items.foldl (fun m it => mapSet m it.id (f it)) acc) id).isSome = true := by
  induction items generalizing acc with
  | nil => exact h
  | cons it items ih =>
    simp only [List.foldl_cons]
    apply ih
    rw [mapGet_mapSet]
    by_cases hh : id = it.id <;> simp [hh, h]

theorem mapGet_foldl_mapSet_isSome (items : List Item) (f : Item → α) :
    ∀ acc : List (Nat × α), ∀ item ∈ items,
      (mapGet (items.foldl (fun m it => mapSet m it.id (f it)) acc) item.id).isSome = true := by
  induction items with
  | nil =>
    intro _ item hm
    cases hm
  | cons it items ih =>
    intro acc item hm
    simp only [List.foldl_cons]
    rcases List.mem_cons.mp hm with h | h
    · subst h
      apply mapGet_foldl_mapSet_pres
      rw [mapGet_mapSet, if_pos rfl]
      rfl
    · exact ih _ item h

theorem mapGet_keyByMap_isSome (items : List Item) (f : Item → α)
    (item : Item) (hm : item ∈ items) :
    (mapGet (keyByMap items f) item.id).isSome = true :=
  mapGet_foldl_mapSet_isSome items f [] item hm

theorem mapGet_initFold (items : List Item) (acc : List (Nat × List PluggableMod))
    (id : Nat) :
    mapGet (items.foldl (fun m item => mapSet m item.id ([] : List PluggableMod)) acc) id =
      if items.any (fun it => it.id == id) then some [] else mapGet acc id := by
  induction items generalizing acc with
  | nil => simp
  | cons it items ih =>
    simp only [List.foldl_cons, List.any_cons]
    rw [ih]
    by_cases h1 : it.id = id
    · by_cases h2 : items.any (fun x => x.id == id) = true <;>
        simp [h1, h2, mapGet_mapSet]
    · have hne : id ≠ it.id := fun hh => h1 hh.symm
      by_cases h2 : items.any (fun x => x.id == id) = true <;>
        simp [h1, h2, mapGet_mapSet, hne]

theorem mapGet_initialAssignments (items : List Item) (item : Item)
    (hm : item ∈ items) :
    mapGet (initialAssignments items) item.id = some [] := by
  unfold initialAssignments
  rw [mapGet_initFold]
  have hmem : items.any (fun it => it.id == item.id) = true :=
    List.any_eq_true.mpr ⟨item, hm, by simp⟩
  simp [hmem]

theorem partitionStep_fst (env : Env) (items : List Item)
    (st : List PluggableMod × List PluggableMod × List PluggableMod × List (Nat × List PluggableMod))
    (m : PluggableMod) :
    (partitionStep env items st m).1 =
      if m.plugCategoryHash == env.generalHash then st.1 ++ [m] else st.1 := by
  by_cases h1 : m.plugCategoryHash = env.generalHash
  · simp [partitionStep, h1]
  · by_cases h2 : m.plugCategoryHash ∈ env.combatHashes
    · simp [partitionStep, h1, h2]
    · by_cases h3 : m.plugCategoryHash ∈ env.raidHashes
      · simp [partitionStep, h1, h2, h3]
      · cases hfind : items.find?
            (fun item => env.bucketsToCategories item.bucketHash == some m.plugCategoryHash) <;>
          simp [partitionStep, h1, h2, h3, hfind]

theorem partitionStep_combat (env : Env) (items : List Item)
    (st : List PluggableMod × List PluggableMod × List PluggableMod × List (Nat × List PluggableMod))
    (m : PluggableMod) :
    (partitionStep env items st m).2.1 =
      if !(m.plugCategoryHash == env.generalHash) &&
          env.combatHashes.contains m.plugCategoryHash then
        st.2.1 ++ [m]
      else st.2.1 := by
  by_cases h1 : m.plugCategoryHash = env.generalHash
  · simp [partitionStep, h1]
  · by_cases h2 : m.plugCategoryHash ∈ env.combatHashes
    · simp [partitionStep, h1, h2]
    · by_cases h3 : m.plugCategoryHash ∈ env.raidHashes
      · simp [partitionStep, h1, h2, h3]
      · cases hfind : items.find?
            (fun item => env.bucketsToCategories item.bucketHash == some m.plugCategoryHash) <;>
          simp [partitionStep, h1, h2, h3, hfind]

theorem partitionStep_raid (env : Env) (items : List Item)
    (st : List PluggableMod × List PluggableMod × List PluggableMod × List (Nat × List PluggableMod))
    (m : PluggableMod) :
    (partitionStep env items st m).2.2.1 =
      if !(m.plugCategoryHash == env.generalHash) &&
          !(env.combatHashes.contains m.plugCategoryHash) &&
          env.raidHashes.contains m.plugCategoryHash then
        st.2.2.1 ++ [m]
      else st.2.2.1 := by
  by_cases h1 : m.plugCategoryHash = env.generalHash
  · simp [partitionStep, h1]
  · by_cases h2 : m.plugCategoryHash ∈ env.combatHashes
    · simp [partitionStep, h1, h2]
    · by_cases h3 : m.plugCategoryHash ∈ env.raidHashes
      · simp [partitionStep, h1, h2, h3]
      · cases hfind : items.find?
            (fun item => env.bucketsToCategories item.bucketHash == some m.plugCategoryHash) <;>
          simp [partitionStep, h1, h2, h3, hfind]

theorem partitionStep_asg (env : Env) (items : List Item)
    (st : List PluggableMod × List PluggableMod × List PluggableMod × List (Nat × List PluggableMod))
    (m : PluggableMod) :
    (partitionStep env items st m).2.2.2 = commitStep env items st.2.2.2 m := by
  by_cases h1 : m.plugCategoryHash = env.generalHash
  · simp [partitionStep, commitStep, isGeneralPlug, h1]
  · by_cases h2 : m.plugCategoryHash ∈ env.combatHashes
    · simp [partitionStep, commitStep, isGeneralPlug, h1, h2]
    · by_cases h3 : m.plugCategoryHash ∈ env.raidHashes
      · simp [partitionStep, commitStep, isGeneralPlug, h1, h2, h3]
      · cases hfind : items.find?
            (fun item => env.bucketsToCategories item.bucketHash == some m.plugCategoryHash) <;>
          simp [partitionStep, commitStep, isGeneralPlug, slotTargetFor, h1, h2, h3, hfind]

theorem partitionFold_fst (env : Env) (items : List Item) (mods : List PluggableMod) :
    ∀ st, (mods.foldl (partitionStep env items) st).1 =
      st.1 ++ mods.filter (fun m => m.plugCategoryHash == env.generalHash) := by
  induction mods with
  | nil =>
    intro st
    simp
  | cons m mods ih =>
    intro st
    simp only [List.foldl_cons, List.filter_cons]
    rw [ih, partitionStep_fst]
    by_cases h : m.plugCategoryHash = env.generalHash <;> simp [h]

theorem partitionFold_combat (env : Env) (items : List Item) (mods : List PluggableMod) :
    ∀ st, (mods.foldl (partitionStep env items) st).2.1 =
      st.2.1 ++ mods.filter (fun m =>
        !(m.plugCategoryHash == env.generalHash) &&
          env.combatHashes.contains m.plugCategoryHash) := by
  induction mods with
  | nil =>
    intro st
    simp
  | cons m mods ih =>
    intro st
    simp only [List.foldl_cons, List.filter_cons]
    rw [ih, partitionStep_combat]
    by_cases h1 : m.plugCategoryHash = env.generalHash <;>
      by_cases h2 : m.plugCategoryHash ∈ env.combatHashes <;>
      simp [h1, h2]

theorem partitionFold_raid (env : Env) (items : List Item) (mods : List PluggableMod) :
    ∀ st, (mods.foldl (partitionStep env items) st).2.2.1 =
      st.2.2.1 ++ mods.filter (fun m =>
        !(m.plugCategoryHash == env.generalHash) &&
          !(env.combatHashes.contains m.plugCategoryHash) &&
          env.raidHashes.contains m.plugCategoryHash) := by
  induction mods with
  | nil =>
    intro st
    simp
  | cons m mods ih =>
    intro st
    simp only [List.foldl_cons, List.filter_cons]
    rw [ih, partitionStep_raid]
    by_cases h1 : m.plugCategoryHash = env.generalHash <;>
      by_cases h2 : m.plugCategoryHash ∈ env.combatHashes <;>
      by_cases h3 : m.plugCategoryHash ∈ env.raidHashes <;>
      simp [h1, h2, h3]

theorem partitionFold_asg (env : Env) (items : List Item) (mods : List PluggableMod) :
    ∀ st, (mods.foldl (partitionStep env items) st).2.2.2 =
      mods.foldl (commitStep env items) st.2.2.2 := by
  induction mods with
  | nil =>
    intro st
    rfl
  | cons m mods ih =>
    intro st
    simp only [List.foldl_cons]
    rw [ih, partitionStep_asg]

theorem mapGet_commitStep (env : Env) (items : List Item)
    (asg : List (Nat × List PluggableMod)) (m : PluggableMod) (id : Nat) :
    mapGet (commitStep env items asg m) id =
      (mapGet asg id).map
        (fun l => if committedToId env items id m then l ++ [m] else l) := by
  by_cases h1 : m.plugCategoryHash = env.generalHash
  · cases hg : mapGet asg id <;>
      simp [commitStep, committedToId, isGeneralPlug, h1, hg]
  · by_cases h2 : m.plugCategoryHash ∈ env.combatHashes
    · cases hg : mapGet asg id <;>
        simp [commitStep, committedToId, isGeneralPlug, h1, h2, hg]
    · by_cases h3 : m.plugCategoryHash ∈ env.raidHashes
      · cases hg : mapGet asg id <;>
          simp [commitStep, committedToId, isGeneralPlug, h1, h2, h3, hg]
      · cases hfind : slotTargetFor env items m with
        | none =>
          cases hg : mapGet asg id <;>
            simp [commitStep, committedToId, isGeneralPlug, h1, h2, h3, hfind, hg]
        | some it =>
          have hstep : commitStep env items asg m = mapPush asg it.id m := by
            simp [commitStep, isGeneralPlug, h1, h2, h3, hfind]
          rw [hstep, mapGet_mapPush]
          by_cases h4 : id = it.id
          · cases hg : mapGet asg id <;>
              simp [committedToId, isGeneralPlug, h1, h2, h3, hfind, h4, hg]
          · have h4s : ¬ it.id = id := fun hh => h4 hh.symm
            cases hg : mapGet asg id <;>
              simp [committedToId, isGeneralPlug, h1, h2, h3, hfind, h4, h4s, hg]

theorem mapGet_commitFold (env : Env) (items : List Item) (mods : List PluggableMod) :
    ∀ asg id, mapGet (mods.foldl (commitStep env items) asg) id =
      (mapGet asg id).map (fun l => l ++ mods.filter (committedToId env items id)) := by
  induction mods with
  | nil =>
    intro asg id
    cases h : mapGet asg id <;> simp [h]
  | cons m mods ih =>
    intro asg id
    simp only [List.foldl_cons, List.filter_cons]
    rw [ih, mapGet_commitStep]
    by_cases h : committedToId env items id m = true <;>
      cases hg : mapGet asg id <;> simp [h, hg]

theorem mapGet_partitionAssignments (env : Env) (items : List Item)
    (mods : List PluggableMod) (item : Item) (hm : item ∈ items) :
    mapGet (partitionAssignments env items mods) item.id =
      some (mods.filter (committedToId env items item.id)) := by
  unfold partitionAssignments partitionMods
  rw [partitionFold_asg]
  have hinit : (([], [], [], initialAssignments items) :
      List PluggableMod × List PluggableMod × List PluggableMod ×
        List (Nat × List PluggableMod)).2.2.2 = initialAssignments items := rfl
  rw [hinit, mapGet_commitFold, mapGet_initialAssignments items item hm]
  simp

theorem commitStep_keys (env : Env) (items : List Item)
    (asg : List (Nat × List PluggableMod)) (m : PluggableMod) :
    (commitStep env items asg m).map (·.1) = asg.map (·.1) := by
  unfold commitStep
  by_cases h : (isGeneralPlug env m || env.combatHashes.contains m.plugCategoryHash ||
      env.raidHashes.contains m.plugCategoryHash) = true
  · rw [if_pos h]
  · rw [if_neg h]
    cases hfind : slotTargetFor env items m <;> simp [hfind, mapPush_keys]

theorem commitFold_keys (env : Env) (items : List Item) (mods : List PluggableMod) :
    ∀ asg, (mods.foldl (commitStep env items) asg).map (·.1) = asg.map (·.1) := by
  induction mods with
  | nil =>
    intro asg
    rfl
  | cons m mods ih =>
    intro asg
    simp only [List.foldl_cons]
    rw [ih, commitStep_keys]

theorem initFold_keys (items : List Item) :
    ∀ acc : List (Nat × List PluggableMod),
      (∀ it ∈ items, ¬ acc.any (fun kv => kv.1 == it.id) = true) →
      (items.map (·.id)).Nodup →
      (items.foldl (fun m item => mapSet m item.id ([] : List PluggableMod)) acc).map (·.1) =
        acc.map (·.1) ++ items.map (·.id) := by
  induction items with
  | nil =>
    intro acc _ _
    simp
  | cons it items ih =>
    intro acc hnone hnd
    simp only [List.map_cons, List.nodup_cons] at hnd
    simp only [List.foldl_cons, List.map_cons]
    have hset : mapSet acc it.id ([] : List PluggableMod) = acc ++ [(it.id, [])] := by
      unfold mapSet
      rw [if_neg (hnone it (List.mem_cons_self it items))]
    rw [hset, ih]
    · simp
    · intro x hx hcon
      rcases List.any_eq_true.mp hcon with ⟨kv, hkv, hbe⟩
      rcases List.mem_append.mp hkv with hkv' | hkv'
      · exact hnone x (List.mem_cons_of_mem _ hx) (List.any_eq_true.mpr ⟨kv, hkv', hbe⟩)
      · have hkvEq : kv = (it.id, []) := List.mem_singleton.mp hkv'
        subst hkvEq
        have hbe' : it.id = x.id := beq_iff_eq.mp hbe
        exact hnd.1 (by rw [hbe']; exact List.mem_map_of_mem (fun i => i.id) hx)
    · exact hnd.2

theorem initialAssignments_keys (items : List Item)
    (hnd : (items.map (·.id)).Nodup) :
    (initialAssignments items).map (·.1) = items.map (·.id) := by
  unfold initialAssignments
  rw [initFold_keys items [] (fun _ _ => by simp) hnd]
  rfl

theorem notMem_commitStep (env : Env) (items : List Item)
    (asg : List (Nat × List PluggableMod)) (m m₀ : PluggableMod)
    (h : ∀ kv ∈ asg, m₀ ∉ kv.2) (hdrop : slotTargetFor env items m₀ = none) :
    ∀ kv ∈ commitStep env items asg m, m₀ ∉ kv.2 := by
  intro kv hkv
  unfold commitStep at hkv
  by_cases hc : (isGeneralPlug env m || env.combatHashes.contains m.plugCategoryHash ||
      env.raidHashes.contains m.plugCategoryHash) = true
  · rw [if_pos hc] at hkv
    exact h kv hkv
  · rw [if_neg hc] at hkv
    cases hfind : slotTargetFor env items m with
    | none =>
      rw [hfind] at hkv
      exact h kv hkv
    | some it =>
      rw [hfind] at hkv
      rcases List.mem_map.mp hkv with ⟨kv', hkv', hEq⟩
      by_cases hk : (kv'.1 == it.id) = true
      · rw [if_pos hk] at hEq
        subst hEq
        intro hx
        rcases List.mem_append.mp hx with hx' | hx'
        · exact h kv' hkv' hx'
        · have hmm : m₀ = m := List.mem_singleton.mp hx'
          rw [hmm, hfind] at hdrop
          cases hdrop
      · rw [if_neg hk] at hEq
        subst hEq
        exact h kv' hkv'

theorem notMem_commitFold (env : Env) (items : List Item) (mods : List PluggableMod)
    (m₀ : PluggableMod) (hdrop : slotTargetFor env items m₀ = none) :
    ∀ asg, (∀ kv ∈ asg, m₀ ∉ kv.2) →
      ∀ kv ∈ mods.foldl (commitStep env items) asg, m₀ ∉ kv.2 := by
  induction mods with
  | nil =>
    intro asg h kv hkv
    exact h kv hkv
  | cons m mods ih =>
    intro asg h kv hkv
    simp only [List.foldl_cons] at hkv
    exact ih _ (notMem_commitStep env items asg m m₀ h hdrop) kv hkv

theorem initialAssignments_vals (items : List Item) :
    ∀ kv ∈ initialAssignments items, kv.2 = ([] : List PluggableMod) := by
  unfold initialAssignments
  suffices hgen : ∀ acc : List (Nat × List PluggableMod),
      (∀ kv ∈ acc, kv.2 = ([] : List PluggableMod)) →
      ∀ kv ∈ items.foldl (fun m item => mapSet m item.id ([] : List PluggableMod)) acc,
        kv.2 = ([] : List PluggableMod) by
    exact hgen [] (fun kv hkv => by cases hkv)
  induction items with
  | nil =>
    intro acc h kv hkv
    exact h kv hkv
  | cons it items ih =>
    intro acc h kv hkv
    simp only [List.foldl_cons] at hkv
    refine ih _ ?_ kv hkv
    intro kv' hkv'
    unfold mapSet at hkv'
    by_cases hc : acc.any (fun kv => kv.1 == it.id) = true
    · rw [if_pos hc] at hkv'
      rcases List.mem_map.mp hkv' with ⟨kv'', hkv'', hEq⟩
      by_cases hk : (kv''.1 == it.id) = true
      · rw [if_pos hk] at hEq
        subst hEq
        rfl
      · rw [if_neg hk] at hEq
        subst hEq
        exact h kv'' hkv''
    · rw [if_neg hc] at hkv'
      rcases List.mem_append.mp hkv' with hx | hx
      · exact h kv' hx
      · rw [List.mem_singleton.mp hx]

/-! ## Claim theorems -/

/-- Claim C4 (code-bug exhibit): `someModHasEnergyRequirement` was documented
and specified to be true only when some mod has a cost with a non-Any type,
but the source predicate `!mod.plug.energyCost || energyType !== Any` is also
true for a mod with no energy cost at all: on a collection holding one
costless mod it returns `true`, where the claim requires `false`. -/
theorem someModHasEnergyRequirement_costless_mod :
    someModHasEnergyRequirement [modNoCostW] = true ∧ modNoCostW.energyCost = none :=
  ⟨rfl, rfl⟩

/-- Claim C5 (counterexample): the compatibility relation used by the search
is not transitive — Thermal is compatible with Any, Any with Arc, yet Thermal
is not compatible with Arc — so "symmetric and transitive" fails as stated. -/
theorem energyTypesCompatible_not_transitive :
    energyTypesCompatible .thermal .any = true ∧
      energyTypesCompatible .any .arc = true ∧
      energyTypesCompatible .thermal .arc = false := by
  decide

/-- Claim C5 (amended): `Compatible(a, b) := a == b || a == Any || b == Any`
is symmetric over all resource type values — unconditionally — and it is
transitive whenever the middle value is not the wildcard `Any` (the
counterexample forces exactly the middle-wildcard exception to
transitivity). -/
theorem energyTypesCompatible_symm_and_trans (a b c : EnergyType) :
    energyTypesCompatible a b = energyTypesCompatible b a ∧
      (b ≠ .any → energyTypesCompatible a b = true →
        energyTypesCompatible b c = true →
        energyTypesCompatible a c = true) := by
  revert a b c
  decide

/-- Claim C5 (witness): symmetry at (Thermal, Arc), and transitivity through
the non-wildcard middle Thermal from (Thermal, Thermal) and (Thermal, Any). -/
theorem energyTypesCompatible_symm_and_trans_witness :
    (energyTypesCompatible .thermal .arc = energyTypesCompatible .arc .thermal) ∧
      (EnergyType.thermal ≠ EnergyType.any ∧
        energyTypesCompatible .thermal .thermal = true ∧
        energyTypesCompatible .thermal .any = true ∧
        energyTypesCompatible .thermal .any = true) :=
  ⟨(energyTypesCompatible_symm_and_trans .thermal .arc .arc).1,
    by decide, by decide, by decide,
    (energyTypesCompatible_symm_and_trans .thermal .thermal .any).2
      (by decide) (by decide) (by decide)⟩

/-- Claim C6: `doEnergiesMatch` returns false for every item without a
resource descriptor, and returns true for every item with one whenever the
mod has no cost or an `Any`-typed cost — whatever the item's resource type
and whatever the external swap policy say. -/
theorem doEnergiesMatch_descriptor_and_wildcard (env : Env) (m : PluggableMod)
    (item : Item) :
    (item.energy = none → doEnergiesMatch env m item = false) ∧
      (item.energy ≠ none →
        (m.energyCost = none ∨ ∃ e, m.energyCost = some e ∧ e.energyType = .any) →
        doEnergiesMatch env m item = true) := by
  constructor
  · intro h
    simp [doEnergiesMatch, h]
  · intro h1 h2
    cases he : item.energy with
    | none => exact absurd he h1
    | some t =>
      rcases h2 with h2 | ⟨e, he2, ht⟩
      · simp [doEnergiesMatch, he, h2]
      · simp [doEnergiesMatch, he, he2, ht]

/-- Claim C6 (witness). -/
theorem doEnergiesMatch_descriptor_and_wildcard_witness :
    doEnergiesMatch envW modAnyW itemNoEnergyW = false ∧
      doEnergiesMatch envW modAnyW itemW = true :=
  ⟨(doEnergiesMatch_descriptor_and_wildcard envW modAnyW itemNoEnergyW).1 rfl,
    (doEnergiesMatch_descriptor_and_wildcard envW modAnyW itemW).2 (by decide)
      (Or.inr ⟨⟨.any, 3⟩, rfl, rfl⟩)⟩

/-- Claim C2: the mapping returned by the solver keeps exactly one entry per
item, in item order, and each entry holds exactly the slot-specific mods
committed to that item id during partitioning; the three nested search loops
contribute nothing to the returned mapping (whether or not any valid triple
exists, and whatever the permutation generator produced). -/
theorem getModAssignments_returns_slot_specific (env : Env) (items : List Item)
    (mods : List PluggableMod) (hnd : (items.map (·.id)).Nodup) :
    ((getModAssignments env items mods).map (·.1) = items.map (·.id)) ∧
      ∀ item ∈ items,
        mapGet (getModAssignments env items mods) item.id =
          some (mods.filter (committedToId env items item.id)) := by
  have hga : getModAssignments env items mods = partitionAssignments env items mods := rfl
  constructor
  · rw [hga]
    unfold partitionAssignments partitionMods
    rw [partitionFold_asg, commitFold_keys]
    exact initialAssignments_keys items hnd
  · intro item hm
    rw [hga]
    exact mapGet_partitionAssignments env items mods item hm

/-- Claim C2 (witness). -/
theorem getModAssignments_returns_slot_specific_witness :
    (([itemW, itemNoEnergyW].map (·.id)).Nodup) ∧
      (((getModAssignments envW [itemW, itemNoEnergyW] [modSlotW, modAnyW]).map (·.1) =
          [itemW, itemNoEnergyW].map (·.id)) ∧
        ∀ item ∈ [itemW, itemNoEnergyW],
          mapGet (getModAssignments envW [itemW, itemNoEnergyW] [modSlotW, modAnyW]) item.id =
            some ([modSlotW, modAnyW].filter
              (committedToId envW [itemW, itemNoEnergyW] item.id))) :=
  ⟨by decide,
    getModAssignments_returns_slot_specific envW [itemW, itemNoEnergyW]
      [modSlotW, modAnyW] (by decide)⟩

/-- Claim C7: the partitioner classifies each mod by testing, in order,
general-tag equality, combat-set membership, raid-set membership, and
otherwise commits the mod to the first item whose bucket category equals the
mod's tag; when nothing matches, the mod ends up in no bucket and in no
assignment list, and partitioning is a total function (it raises no error). -/
theorem partition_classification (env : Env) (items : List Item)
    (mods : List PluggableMod) :
    ((partitionMods env items mods).1 =
        mods.filter (fun m => m.plugCategoryHash == env.generalHash)) ∧
      ((partitionMods env items mods).2.1 =
        mods.filter (fun m => !(m.plugCategoryHash == env.generalHash) &&
          env.combatHashes.contains m.plugCategoryHash)) ∧
      ((partitionMods env items mods).2.2.1 =
        mods.filter (fun m => !(m.plugCategoryHash == env.generalHash) &&
          !(env.combatHashes.contains m.plugCategoryHash) &&
          env.raidHashes.contains m.plugCategoryHash)) ∧
      ∀ m ∈ mods, m.plugCategoryHash ≠ env.generalHash →
        m.plugCategoryHash ∉ env.combatHashes →
        m.plugCategoryHash ∉ env.raidHashes →
        ((slotTargetFor env items m = none →
            m ∉ (partitionMods env items mods).1 ∧
            m ∉ (partitionMods env items mods).2.1 ∧
            m ∉ (partitionMods env items mods).2.2.1 ∧
            ∀ kv ∈ (partitionMods env items mods).2.2.2, m ∉ kv.2) ∧
          (∀ it, slotTargetFor env items m = some it →
            ∃ l, mapGet (partitionMods env items mods).2.2.2 it.id = some l ∧ m ∈ l)) := by
  refine ⟨?_, ?_, ?_, ?_⟩
  · unfold partitionMods
    rw [partitionFold_fst]
    rfl
  · unfold partitionMods
    rw [partitionFold_combat]
    rfl
  · unfold partitionMods
    rw [partitionFold_raid]
    rfl
  · intro m hm h1 h2 h3
    constructor
    · intro hdrop
      refine ⟨?_, ?_, ?_, ?_⟩
      · unfold partitionMods
        rw [partitionFold_fst]
        intro hmem
        have hc : m ∈ mods ∧ m.plugCategoryHash = env.generalHash := by simpa using hmem
        exact h1 hc.2
      · unfold partitionMods
        rw [partitionFold_combat]
        intro hmem
        have hc : m ∈ mods ∧ ¬ m.plugCategoryHash = env.generalHash ∧
            m.plugCategoryHash ∈ env.combatHashes := by simpa using hmem
        exact h2 hc.2.2
      · unfold partitionMods
        rw [partitionFold_raid]
        intro hmem
        have hc : m ∈ mods ∧ (¬ m.plugCategoryHash = env.generalHash ∧
            m.plugCategoryHash ∉ env.combatHashes) ∧
            m.plugCategoryHash ∈ env.raidHashes := by simpa using hmem
        exact h3 hc.2.2
      · unfold partitionMods
        rw [partitionFold_asg]
        exact notMem_commitFold env items mods m hdrop (initialAssignments items)
          (fun kv hkv hx => by
            rw [initialAssignments_vals items kv hkv] at hx
            cases hx)
    · intro it hfind
      have hitem : it ∈ items :=
        List.mem_of_find?_eq_some hfind
      refine ⟨mods.filter (committedToId env items it.id), ?_, ?_⟩
      · exact mapGet_partitionAssignments env items mods it hitem
      · refine List.mem_filter.mpr ⟨hm, ?_⟩
        simp [committedToId, isGeneralPlug, h1, h2, h3, hfind]

/-- Claim C7 (witness). -/
theorem partition_classification_witness :
    (modDropW ∈ [modDropW, modSlotW] ∧
        modDropW.plugCategoryHash ≠ envW.generalHash ∧
        modDropW.plugCategoryHash ∉ envW.combatHashes ∧
        modDropW.plugCategoryHash ∉ envW.raidHashes ∧
        slotTargetFor envW [itemW, itemNoEnergyW] modDropW = none) ∧
      (modDropW ∉ (partitionMods envW [itemW, itemNoEnergyW] [modDropW, modSlotW]).1 ∧
        modDropW ∉ (partitionMods envW [itemW, itemNoEnergyW] [modDropW, modSlotW]).2.1 ∧
        modDropW ∉ (partitionMods envW [itemW, itemNoEnergyW] [modDropW, modSlotW]).2.2.1 ∧
        ∀ kv ∈ (partitionMods envW [itemW, itemNoEnergyW] [modDropW, modSlotW]).2.2.2,
          modDropW ∉ kv.2) :=
  ⟨⟨by decide, by decide, by decide, by decide, by decide⟩,
    (((partition_classification envW [itemW, itemNoEnergyW] [modDropW, modSlotW]).2.2.2
        modDropW (by decide) (by decide) (by decide) (by decide)).1 (by decide))⟩

theorem raidLoop_congr {rOk rOk' : Perm → Perm → Perm → Bool}
    (h : ∀ c g r, rOk c g r = rOk' c g r) (c g : Perm) (rs : List Perm) :
    raidLoop rOk c g rs = raidLoop rOk' c g rs := by
  induction rs with
  | nil => rfl
  | cons x xs ih => simp [raidLoop, h, ih]

theorem generalLoop_congr {gOk gOk' : Perm → Perm → Bool}
    {rOk rOk' : Perm → Perm → Perm → Bool}
    (hg : ∀ c g, gOk c g = gOk' c g) (hr : ∀ c g r, rOk c g r = rOk' c g r)
    (c : Perm) (rPs : List Perm) (gs : List Perm) :
    generalLoop gOk rOk c rPs gs = generalLoop gOk' rOk' c rPs gs := by
  induction gs with
  | nil => rfl
  | cons x xs ih => simp [generalLoop, hg, ih, raidLoop_congr hr]

theorem searchLoops_congr {cOk cOk' : Perm → Bool} {gOk gOk' : Perm → Perm → Bool}
    {rOk rOk' : Perm → Perm → Perm → Bool}
    (hcv : ∀ c, cOk c = cOk' c) (hg : ∀ c g, gOk c g = gOk' c g)
    (hr : ∀ c g r, rOk c g r = rOk' c g r)
    (gPs rPs cPs : List Perm) :
    searchLoops cOk gOk rOk gPs rPs cPs = searchLoops cOk' gOk' rOk' gPs rPs cPs := by
  induction cPs with
  | nil => rfl
  | cons x xs ih => simp [searchLoops, hcv, ih, generalLoop_congr hg hr]

/-- Claim C3: early-exit pruning is sound — a combat permutation that fails
its item loop contributes no accepted triple at all — and complete: the set
of accepted `(C, G, R)` triples of the early-exit search equals that of the
naive variant that evaluates every index check at each level before
deciding. -/
theorem search_early_exit_equiv (env : Env) (items : List Item)
    (energies : List (Nat × ItemEnergy))
    (sockets : List (Nat × Option (List SocketMetadata)))
    (combatPs generalPs raidPs : List Perm) (c : Perm) :
    (combatPermOk env energies sockets items c = false →
      ∀ g r, (c, g, r) ∉
        searchValidTriples env items energies sockets combatPs generalPs raidPs) ∧
      searchValidTriples env items energies sockets combatPs generalPs raidPs =
        searchValidTriplesNaive env items energies sockets combatPs generalPs raidPs := by
  constructor
  · intro hfail g r hmem
    unfold searchValidTriples at hmem
    have hparts := mem_searchLoops.mp hmem
    rw [hparts.2.1] at hfail
    cases hfail
  · unfold searchValidTriples searchValidTriplesNaive
    refine searchLoops_congr ?_ ?_ ?_ generalPs raidPs combatPs
    · intro p
      unfold combatPermOk combatPermOkNaive
      exact forAllStopFirst_eq_listAllEager _ _
    · intro p q
      unfold generalPermOk generalPermOkNaive
      exact forAllStopFirst_eq_listAllEager _ _
    · intro p q s
      unfold raidPermOk raidPermOkNaive
      exact forAllStopFirst_eq_listAllEager _ _

/-- Claim C3 (witness). -/
theorem search_early_exit_equiv_witness :
    (combatPermOk envW [] [] [itemW] cFailW = false ∧
        ∀ g r, (cFailW, g, r) ∉
          searchValidTriples envW [itemW] [] [] [cFailW] [permNoneW] [permNoneW]) ∧
      searchValidTriples envW [itemW] [] [] [cFailW] [permNoneW] [permNoneW] =
        searchValidTriplesNaive envW [itemW] [] [] [cFailW] [permNoneW] [permNoneW] :=
  ⟨⟨by decide,
      (search_early_exit_equiv envW [itemW] [] [] [cFailW] [permNoneW] [permNoneW]
        cFailW).1 (by decide)⟩,
    (search_early_exit_equiv envW [itemW] [] [] [cFailW] [permNoneW] [permNoneW]
      cFailW).2⟩

/-- Claim C9 (counterexample): called on four slots — one of the mods even
carrying a negative resource amount — the solver raises nothing and returns a
mapping computed from the malformed input, so "fails fast with a descriptive
error" is false of the code. -/
theorem getModAssignments_malformed_returns :
    getModAssignments envW itemsFourW [modSlotW, modNegW] =
        [(1, [modSlotW, modNegW]), (2, []), (3, []), (4, [])] ∧
      itemsFourW.length ≠ 5 := by
  constructor
  · rfl
  · decide

/-- Claim C9 (amended): the solver performs no input validation at all: with
a slot count other than five, and whatever the resource amounts (negative
included), it completes normally and returns the mapping computed from the
malformed input — one entry per item id holding that item's committed
slot-specific mods. -/
theorem getModAssignments_malformed_no_fail (env : Env) (items : List Item)
    (mods : List PluggableMod) (_hlen : items.length ≠ 5) :
    ∀ item ∈ items,
      mapGet (getModAssignments env items mods) item.id =
        some (mods.filter (committedToId env items item.id)) :=
  fun item hm => mapGet_partitionAssignments env items mods item hm

/-- Claim C9 (witness). -/
theorem getModAssignments_malformed_no_fail_witness :
    itemsFourW.length ≠ 5 ∧
      ∀ item ∈ itemsFourW,
        mapGet (getModAssignments envW itemsFourW [modSlotW, modNegW]) item.id =
          some ([modSlotW, modNegW].filter (committedToId envW itemsFourW item.id)) :=
  ⟨by decide,
    getModAssignments_malformed_no_fail envW itemsFourW [modSlotW, modNegW] (by decide)⟩

theorem searchCandidates_mem_iff {env : Env} {items : List Item}
    {mods : List PluggableMod} {c g r : Perm} :
    (c, g, r) ∈ searchCandidates env items mods ↔
      c ∈ env.permute (partitionMods env items mods).2.1 stringifyMods ∧
        combatPermOk env (seededEnergies env items mods)
          (itemSocketMetadata env items) items c = true ∧
        g ∈ env.permute (partitionMods env items mods).1 stringifyMods ∧
        generalPermOk env (seededEnergies env items mods) items c g = true ∧
        r ∈ env.permute (partitionMods env items mods).2.2.1 stringifyMods ∧
        raidPermOk env (seededEnergies env items mods)
          (itemSocketMetadata env items) items c g r = true := by
  unfold searchCandidates searchValidTriples
  exact mem_searchLoops

/-- Claim C10: the per-item resource states seeded before the search are
read-only for the three nested loops: whether a triple is accepted depends
only on the triple itself and the states seeded before the search (each
check recomputes its branch's cumulative cost from the permutations), so
evaluating any branch leaves the states seen by every sibling branch
unchanged; and, for distinct item ids, the seeded state of each item is
exactly (used = sum of its committed slot-specific mod costs with missing
costs as 0, capacity = the policy capacity, type = Any when the item has no
descriptor or the policy allows swapping, its own type otherwise). -/
theorem seeded_energies_immutable (env : Env) (items : List Item)
    (mods : List PluggableMod) (c g r : Perm)
    (hnd : (items.map (·.id)).Nodup) :
    ((c, g, r) ∈ searchCandidates env items mods ↔
      (c ∈ env.permute (partitionMods env items mods).2.1 stringifyMods ∧
        combatPermOk env (seededEnergies env items mods)
          (itemSocketMetadata env items) items c = true) ∧
      (g ∈ env.permute (partitionMods env items mods).1 stringifyMods ∧
        generalPermOk env (seededEnergies env items mods) items c g = true) ∧
      (r ∈ env.permute (partitionMods env items mods).2.2.1 stringifyMods ∧
        raidPermOk env (seededEnergies env items mods)
          (itemSocketMetadata env items) items c g r = true)) ∧
      ∀ item ∈ items,
        mapGet (seededEnergies env items mods) item.id = some
          { used := sumModCosts (mods.filter (committedToId env items item.id))
            capacity := env.maxEnergy item
            type :=
              match item.energy with
              | none => .any
              | some itemType => if env.canSwap item then .any else itemType } := by
  constructor
  · rw [searchCandidates_mem_iff]
    tauto
  · intro item hm
    unfold seededEnergies itemEnergies
    rw [mapGet_keyByMap_of_nodup items _ hnd item hm]
    rw [mapGet_partitionAssignments env items mods item hm]
    rfl

/-- Claim C10 (witness). -/
theorem seeded_energies_immutable_witness :
    (([itemW].map (·.id)).Nodup) ∧
      (((permNoneW, permNoneW, permNoneW) ∈ searchCandidates envW [itemW] [] ↔
        (permNoneW ∈ envW.permute (partitionMods envW [itemW] []).2.1 stringifyMods ∧
          combatPermOk envW (seededEnergies envW [itemW] [])
            (itemSocketMetadata envW [itemW]) [itemW] permNoneW = true) ∧
        (permNoneW ∈ envW.permute (partitionMods envW [itemW] []).1 stringifyMods ∧
          generalPermOk envW (seededEnergies envW [itemW] []) [itemW]
            permNoneW permNoneW = true) ∧
        (permNoneW ∈ envW.permute (partitionMods envW [itemW] []).2.2.1 stringifyMods ∧
          raidPermOk envW (seededEnergies envW [itemW] [])
            (itemSocketMetadata envW [itemW]) [itemW]
            permNoneW permNoneW permNoneW = true)) ∧
      ∀ item ∈ [itemW],
        mapGet (seededEnergies envW [itemW] []) item.id = some
          { used := sumModCosts (([] : List PluggableMod).filter
              (committedToId envW [itemW] item.id))
            capacity := envW.maxEnergy item
            type :=
              match item.energy with
              | none => .any
              | some itemType => if envW.canSwap item then .any else itemType }) :=
  ⟨by decide, seeded_energies_immutable envW [itemW] [] permNoneW permNoneW permNoneW (by decide)⟩

theorem combatSlotCheck_some {env : Env} {E : List (Nat × ItemEnergy)}
    {S : List (Nat × Option (List SocketMetadata))} {cP : Perm} {i : Nat}
    {item : Item} {mc : PluggableMod} (hc : cP.getD i none = some mc)
    (h : combatSlotCheck env E S cP i item = true) :
    ∃ es, mapGet E item.id = some es ∧
      es.used + modCostD mc ≤ es.capacity ∧
      (es.type = modTypeD mc ∨ modTypeD mc = .any ∨ es.type = .any) ∧
      ∃ tag, env.modTypeTag mc.plugCategoryHash = some tag ∧
        socketsAccept S item.id tag = true := by
  rw [combatSlotCheck, hc] at h
  simp only [Bool.and_eq_true] at h
  obtain ⟨h1, h2⟩ := h
  cases hE : mapGet E item.id with
  | none =>
    rw [hE] at h1
    cases h1
  | some es =>
    rw [hE] at h1
    simp only [Bool.and_eq_true, Bool.or_eq_true, decide_eq_true_eq, beq_iff_eq] at h1
    cases hT : env.modTypeTag mc.plugCategoryHash with
    | none =>
      rw [hT] at h2
      cases h2
    | some tag =>
      rw [hT] at h2
      exact ⟨es, rfl, h1.1, or_assoc.mp h1.2, tag, rfl, h2⟩

theorem generalSlotCheck_some {env : Env} {E : List (Nat × ItemEnergy)}
    {cP gP : Perm} {i : Nat} {item : Item} {mg : PluggableMod}
    (hg : gP.getD i none = some mg)
    (h : generalSlotCheck env E cP gP i item = true) :
    ∃ es, mapGet E item.id = some es ∧
      es.used + modCostD mg + optModCost (cP.getD i none) ≤ es.capacity ∧
      (es.type = modTypeD mg ∨ modTypeD mg = .any ∨ es.type = .any) ∧
      energyTypesCompatible (modTypeD mg) (optModType (cP.getD i none)) = true := by
  rw [generalSlotCheck, hg] at h
  cases hE : mapGet E item.id with
  | none =>
    rw [hE] at h
    cases h
  | some es =>
    rw [hE] at h
    simp only [Bool.and_eq_true, Bool.or_eq_true, decide_eq_true_eq, beq_iff_eq] at h
    exact ⟨es, rfl, h.1.1, or_assoc.mp h.1.2, h.2⟩

theorem raidSlotCheck_some {env : Env} {E : List (Nat × ItemEnergy)}
    {S : List (Nat × Option (List SocketMetadata))} {cP gP rP : Perm} {i : Nat}
    {item : Item} {mr : PluggableMod} (hr : rP.getD i none = some mr)
    (h : raidSlotCheck env E S cP gP rP i item = true) :
    ∃ es, mapGet E item.id = some es ∧
      es.used + optModCost (gP.getD i none) + optModCost (cP.getD i none) +
        modCostD mr ≤ es.capacity ∧
      (es.type = modTypeD mr ∨ modTypeD mr = .any ∨ es.type = .any) ∧
      energyTypesCompatible (modTypeD mr) (optModType (gP.getD i none)) = true ∧
      energyTypesCompatible (modTypeD mr) (optModType (cP.getD i none)) = true ∧
      ∃ tag, env.modTypeTag mr.plugCategoryHash = some tag ∧
        socketsAccept S item.id tag = true := by
  rw [raidSlotCheck, hr] at h
  simp only [Bool.and_eq_true] at h
  obtain ⟨h1, h2⟩ := h
  cases hE : mapGet E item.id with
  | none =>
    rw [hE] at h1
    cases h1
  | some es =>
    rw [hE] at h1
    simp only [Bool.and_eq_true, Bool.or_eq_true, decide_eq_true_eq, beq_iff_eq] at h1
    cases hT : env.modTypeTag mr.plugCategoryHash with
    | none =>
      rw [hT] at h2
      cases h2
    | some tag =>
      rw [hT] at h2
      exact ⟨es, rfl, h1.1.1.1, or_assoc.mp h1.1.1.2, h1.1.2, h1.2, tag, rfl, h2⟩

theorem optModCost_some (m : PluggableMod) : optModCost (some m) = modCostD m := rfl

theorem optModCost_none : optModCost none = 0 := rfl

theorem optModType_some (m : PluggableMod) : optModType (some m) = modTypeD m := rfl

theorem optModType_none : optModType none = .any := rfl

/-- Claim C1: search soundness. Every (combat, general, raid) triple the
search records as a candidate satisfies, at every slot index, the cumulative
resource bound across all three categories (absent mods cost 0; an index
where all three categories are empty imposes no constraint, per the claim's
"mods that are none impose no constraint"), slot/mod type compatibility for
each present mod, mutual type compatibility for each pair of present mods,
and socket-tag membership for the present combat and raid mods. -/
theorem assignment_search_sound (env : Env) (items : List Item)
    (mods : List PluggableMod) (c g r : Perm) (i : Nat) (item : Item)
    (hmem : (c, g, r) ∈ searchCandidates env items mods)
    (hidx : (i, item) ∈ items.enum) :
    ∃ es, mapGet (seededEnergies env items mods) item.id = some es ∧
      ((c.getD i none ≠ none ∨ g.getD i none ≠ none ∨ r.getD i none ≠ none) →
        es.used + optModCost (c.getD i none) + optModCost (g.getD i none) +
          optModCost (r.getD i none) ≤ es.capacity) ∧
      (∀ m, c.getD i none = some m →
        (es.type = modTypeD m ∨ modTypeD m = .any ∨ es.type = .any)) ∧
      (∀ m, g.getD i none = some m →
        (es.type = modTypeD m ∨ modTypeD m = .any ∨ es.type = .any)) ∧
      (∀ m, r.getD i none = some m →
        (es.type = modTypeD m ∨ modTypeD m = .any ∨ es.type = .any)) ∧
      (∀ mg mc, g.getD i none = some mg → c.getD i none = some mc →
        energyTypesCompatible (modTypeD mg) (modTypeD mc) = true) ∧
      (∀ mr mg, r.getD i none = some mr → g.getD i none = some mg →
        energyTypesCompatible (modTypeD mr) (modTypeD mg) = true) ∧
      (∀ mr mc, r.getD i none = some mr → c.getD i none = some mc →
        energyTypesCompatible (modTypeD mr) (modTypeD mc) = true) ∧
      (∀ m, c.getD i none = some m →
        ∃ tag, env.modTypeTag m.plugCategoryHash = some tag ∧
          socketsAccept (itemSocketMetadata env items) item.id tag = true) ∧
      (∀ m, r.getD i none = some m →
        ∃ tag, env.modTypeTag m.plugCategoryHash = some tag ∧
          socketsAccept (itemSocketMetadata env items) item.id tag = true) := by
  obtain ⟨hcp, hcv, hgp, hgv, hrp, hrv⟩ := searchCandidates_mem_iff.mp hmem
  have hC : combatSlotCheck env (seededEnergies env items mods)
      (itemSocketMetadata env items) c i item = true := by
    unfold combatPermOk at hcv
    simpa using (forAllStopFirst_eq_true_iff _ _).mp hcv (i, item) hidx
  have hG : generalSlotCheck env (seededEnergies env items mods) c g i item = true := by
    unfold generalPermOk at hgv
    simpa using (forAllStopFirst_eq_true_iff _ _).mp hgv (i, item) hidx
  have hR : raidSlotCheck env (seededEnergies env items mods)
      (itemSocketMetadata env items) c g r i item = true := by
    unfold raidPermOk at hrv
    simpa using (forAllStopFirst_eq_true_iff _ _).mp hrv (i, item) hidx
  have hitem : item ∈ items := by
    have hget := List.mk_mem_enum_iff_getElem?.mp hidx
    rcases List.getElem?_eq_some.mp hget with ⟨hlt, hEq⟩
    exact hEq ▸ List.getElem_mem hlt
  have hesx : ∃ es, mapGet (seededEnergies env items mods) item.id = some es := by
    unfold seededEnergies itemEnergies
    exact Option.isSome_iff_exists.mp (mapGet_keyByMap_isSome items _ item hitem)
  obtain ⟨es, hes⟩ := hesx
  refine ⟨es, hes, ?_, ?_, ?_, ?_, ?_, ?_, ?_, ?_, ?_⟩
  · intro hne
    cases hr0 : r.getD i none with
    | some mr =>
      obtain ⟨es', hes', hle, -, -, -, -⟩ := raidSlotCheck_some hr0 hR
      have hEq : es' = es := Option.some.inj (hes'.symm.trans hes)
      rw [hEq] at hle
      simp only [optModCost_some, optModCost_none]
      omega
    | none =>
      cases hg0 : g.getD i none with
      | some mg =>
        obtain ⟨es', hes', hle, -, -⟩ := generalSlotCheck_some hg0 hG
        have hEq : es' = es := Option.some.inj (hes'.symm.trans hes)
        rw [hEq] at hle
        simp only [optModCost_some, optModCost_none]
        omega
      | none =>
        cases hc0 : c.getD i none with
        | some mc =>
          obtain ⟨es', hes', hle, -, -⟩ := combatSlotCheck_some hc0 hC
          have hEq : es' = es := Option.some.inj (hes'.symm.trans hes)
          rw [hEq] at hle
          simp only [optModCost_some, optModCost_none]
          omega
        | none =>
          rcases hne with h | h | h
          · exact absurd hc0 h
          · exact absurd hg0 h
          · exact absurd hr0 h
  · intro m hc0
    obtain ⟨es', hes', -, hcompat, -⟩ := combatSlotCheck_some hc0 hC
    have hEq : es' = es := Option.some.inj (hes'.symm.trans hes)
    rw [hEq] at hcompat
    exact hcompat
  · intro m hg0
    obtain ⟨es', hes', -, hcompat, -⟩ := generalSlotCheck_some hg0 hG
    have hEq : es' = es := Option.some.inj (hes'.symm.trans hes)
    rw [hEq] at hcompat
    exact hcompat
  · intro m hr0
    obtain ⟨es', hes', -, hcompat, -, -, -⟩ := raidSlotCheck_some hr0 hR
    have hEq : es' = es := Option.some.inj (hes'.symm.trans hes)
    rw [hEq] at hcompat
    exact hcompat
  · intro mg mc hg0 hc0
    obtain ⟨es', hes', -, -, hcompat⟩ := generalSlotCheck_some hg0 hG
    rw [hc0, optModType_some] at hcompat
    exact hcompat
  · intro mr mg hr0 hg0
    obtain ⟨es', hes', -, -, hcompat, -, -⟩ := raidSlotCheck_some hr0 hR
    rw [hg0, optModType_some] at hcompat
    exact hcompat
  · intro mr mc hr0 hc0
    obtain ⟨es', hes', -, -, -, hcompat, -⟩ := raidSlotCheck_some hr0 hR
    rw [hc0, optModType_some] at hcompat
    exact hcompat
  · intro m hc0
    obtain ⟨es', hes', -, -, hsock⟩ := combatSlotCheck_some hc0 hC
    exact hsock
  · intro m hr0
    obtain ⟨es', hes', -, -, -, -, hsock⟩ := raidSlotCheck_some hr0 hR
    exact hsock

/-- Claim C1 (witness). -/
theorem assignment_search_sound_witness :
    ((permNoneW, permNoneW, permNoneW) ∈ searchCandidates envW [itemW] [] ∧
        (0, itemW) ∈ ([itemW] : List Item).enum) ∧
      (∃ es, mapGet (seededEnergies envW [itemW] []) itemW.id = some es ∧
        ((permNoneW.getD 0 none ≠ none ∨ permNoneW.getD 0 none ≠ none ∨
            permNoneW.getD 0 none ≠ none) →
          es.used + optModCost (permNoneW.getD 0 none) +
            optModCost (permNoneW.getD 0 none) +
            optModCost (permNoneW.getD 0 none) ≤ es.capacity) ∧
        (∀ m, permNoneW.getD 0 none = some m →
          (es.type = modTypeD m ∨ modTypeD m = .any ∨ es.type = .any)) ∧
        (∀ m, permNoneW.getD 0 none = some m →
          (es.type = modTypeD m ∨ modTypeD m = .any ∨ es.type = .any)) ∧
        (∀ m, permNoneW.getD 0 none = some m →
          (es.type = modTypeD m ∨ modTypeD m = .any ∨ es.type = .any)) ∧
        (∀ mg mc, permNoneW.getD 0 none = some mg → permNoneW.getD 0 none = some mc →
          energyTypesCompatible (modTypeD mg) (modTypeD mc) = true) ∧
        (∀ mr mg, permNoneW.getD 0 none = some mr → permNoneW.getD 0 none = some mg →
          energyTypesCompatible (modTypeD mr) (modTypeD mg) = true) ∧
        (∀ mr mc, permNoneW.getD 0 none = some mr → permNoneW.getD 0 none = some mc →
          energyTypesCompatible (modTypeD mr) (modTypeD mc) = true) ∧
        (∀ m, permNoneW.getD 0 none = some m →
          ∃ tag, envW.modTypeTag m.plugCategoryHash = some tag ∧
            socketsAccept (itemSocketMetadata envW [itemW]) itemW.id tag = true) ∧
        (∀ m, permNoneW.getD 0 none = some m →
          ∃ tag, envW.modTypeTag m.plugCategoryHash = some tag ∧
            socketsAccept (itemSocketMetadata envW [itemW]) itemW.id tag = true)) :=
  ⟨⟨by decide, by decide⟩,
    assignment_search_sound envW [itemW] [] permNoneW permNoneW permNoneW 0 itemW
      (by decide) (by decide)⟩

theorem digitChar_toNat (d : Nat) (h : d < 10) : (digitChar d).toNat = 48 + d := by
  interval_cases d <;> decide

theorem natRepr_digits (n : Nat) :
    ∀ ch ∈ natRepr n, 48 ≤ ch.toNat ∧ ch.toNat ≤ 57 := by
  induction n using Nat.strong_induction_on with
  | _ n ih =>
    rw [natRepr]
    by_cases h : n < 10
    · simp only [if_pos h]
      intro ch hch
      have hc : ch = digitChar n := List.mem_singleton.mp hch
      rw [hc, digitChar_toNat n h]
      omega
    · simp only [if_neg h]
      intro ch hch
      rcases List.mem_append.mp hch with hch | hch
      · exact ih (n / 10) (Nat.div_lt_self (by omega) (by omega)) ch hch
      · have hc : ch = digitChar (n % 10) := List.mem_singleton.mp hch
        have h10 : n % 10 < 10 := Nat.mod_lt _ (by omega)
        rw [hc, digitChar_toNat _ h10]
        omega

theorem natRepr_ne_nil (n : Nat) : natRepr n ≠ [] := by
  rw [natRepr]
  by_cases h : n < 10 <;> simp [h]

theorem valOfDigits_append_single (l : List Char) (c : Char) :
    valOfDigits (l ++ [c]) = 10 * valOfDigits l + (c.toNat - 48) := by
  simp [valOfDigits, List.foldl_append]

theorem valOfDigits_natRepr (n : Nat) : valOfDigits (natRepr n) = n := by
  induction n using Nat.strong_induction_on with
  | _ n ih =>
    rw [natRepr]
    by_cases h : n < 10
    · simp only [if_pos h]
      simp [valOfDigits, digitChar_toNat n h]
    · simp only [if_neg h]
      rw [valOfDigits_append_single]
      rw [ih (n / 10) (Nat.div_lt_self (by omega) (by omega))]
      have h10 : n % 10 < 10 := Nat.mod_lt _ (by omega)
      rw [digitChar_toNat _ h10]
      omega

theorem natRepr_inj {m n : Nat} (h : natRepr m = natRepr n) : m = n := by
  have := congrArg valOfDigits h
  rwa [valOfDigits_natRepr, valOfDigits_natRepr] at this

theorem not_mem_natRepr_of_toNat {c : Char} (hc : c.toNat < 48 ∨ 57 < c.toNat)
    (n : Nat) : c ∉ natRepr n := by
  intro hmem
  have := natRepr_digits n c hmem
  omega

theorem comma_not_mem_natRepr (n : Nat) : ',' ∉ natRepr n :=
  not_mem_natRepr_of_toNat (by decide) n

theorem rparen_not_mem_natRepr (n : Nat) : ')' ∉ natRepr n :=
  not_mem_natRepr_of_toNat (by decide) n

theorem intRepr_chars (i : Int) :
    ∀ ch ∈ intRepr i, ch = '-' ∨ (48 ≤ ch.toNat ∧ ch.toNat ≤ 57) := by
  unfold intRepr
  by_cases hi : i < 0
  · rw [if_pos hi]
    intro ch hch
    rcases List.mem_cons.mp hch with hch | hch
    · exact Or.inl hch
    · exact Or.inr (natRepr_digits _ ch hch)
  · rw [if_neg hi]
    intro ch hch
    exact Or.inr (natRepr_digits _ ch hch)

theorem comma_not_mem_intRepr (i : Int) : ',' ∉ intRepr i := by
  intro hmem
  rcases intRepr_chars i ',' hmem with h | h
  · cases h
  · revert h
    decide

theorem rparen_not_mem_intRepr (i : Int) : ')' ∉ intRepr i := by
  intro hmem
  rcases intRepr_chars i ')' hmem with h | h
  · cases h
  · revert h
    decide

theorem intRepr_inj {i j : Int} (h : intRepr i = intRepr j) : i = j := by
  unfold intRepr at h
  by_cases hi : i < 0 <;> by_cases hj : j < 0
  · rw [if_pos hi, if_pos hj] at h
    have hab : i.natAbs = j.natAbs := natRepr_inj (List.cons.inj h).2
    omega
  · rw [if_pos hi, if_neg hj] at h
    have hmem : '-' ∈ natRepr j.toNat := by
      rw [← h]
      exact List.mem_cons_self _ _
    have := natRepr_digits _ '-' hmem
    exact absurd this (by decide)
  · rw [if_neg hi, if_pos hj] at h
    have hmem : '-' ∈ natRepr i.toNat := by
      rw [h]
      exact List.mem_cons_self _ _
    have := natRepr_digits _ '-' hmem
    exact absurd this (by decide)
  · rw [if_neg hi, if_neg hj] at h
    have := natRepr_inj h
    omega

theorem u_mem_undefined : 'u' ∈ "undefined".data := by decide

theorem comma_not_mem_undefined : ',' ∉ "undefined".data := by decide

theorem rparen_not_mem_undefined : ')' ∉ "undefined".data := by decide

theorem comma_not_mem_fieldTypeChars (ot : Option EnergyType) :
    ',' ∉ fieldTypeChars ot := by
  cases ot with
  | none => exact comma_not_mem_undefined
  | some t => exact comma_not_mem_natRepr _

theorem comma_not_mem_fieldCostChars (oc : Option Int) :
    ',' ∉ fieldCostChars oc := by
  cases oc with
  | none => exact comma_not_mem_undefined
  | some i => exact comma_not_mem_intRepr _

theorem energyType_toNat_inj (a b : EnergyType) (h : a.toNat = b.toNat) : a = b := by
  revert h
  revert a b
  decide

theorem fieldTypeChars_inj {a b : Option EnergyType}
    (h : fieldTypeChars a = fieldTypeChars b) : a = b := by
  cases a with
  | none =>
    cases b with
    | none => rfl
    | some t =>
      exfalso
      have hmem : 'u' ∈ natRepr t.toNat := by
        have hh : "undefined".data = natRepr t.toNat := h
        rw [← hh]
        exact u_mem_undefined
      exact absurd (natRepr_digits _ 'u' hmem) (by decide)
  | some t =>
    cases b with
    | none =>
      exfalso
      have hmem : 'u' ∈ natRepr t.toNat := by
        have hh : natRepr t.toNat = "undefined".data := h
        rw [hh]
        exact u_mem_undefined
      exact absurd (natRepr_digits _ 'u' hmem) (by decide)
    | some t' =>
      have := energyType_toNat_inj t t' (natRepr_inj h)
      rw [this]

theorem fieldCostChars_inj {a b : Option Int}
    (h : fieldCostChars a = fieldCostChars b) : a = b := by
  cases a with
  | none =>
    cases b with
    | none => rfl
    | some i =>
      exfalso
      have hmem : 'u' ∈ intRepr i := by
        have hh : "undefined".data = intRepr i := h
        rw [← hh]
        exact u_mem_undefined
      rcases intRepr_chars i 'u' hmem with hc | hc
      · cases hc
      · exact absurd hc (by decide)
  | some i =>
    cases b with
    | none =>
      exfalso
      have hmem : 'u' ∈ intRepr i := by
        have hh : intRepr i = "undefined".data := h
        rw [hh]
        exact u_mem_undefined
      rcases intRepr_chars i 'u' hmem with hc | hc
      · cases hc
      · exact absurd hc (by decide)
    | some i' =>
      rw [intRepr_inj h]

theorem append_mid_inj {c : Char} (a : List Char) :
    ∀ (b : List Char) {x y : List Char}, c ∉ a → c ∉ b →
      a ++ c :: x = b ++ c :: y → a = b ∧ x = y := by
  induction a with
  | nil =>
    intro b x y _ hb h
    cases b with
    | nil => simpa using h
    | cons b' bs =>
      simp only [List.nil_append, List.cons_append, List.cons.injEq] at h
      have : c ∈ b' :: bs := by
        rw [h.1]
        exact List.mem_cons_self b' bs
      exact absurd this hb
  | cons a' as ih =>
    intro b x y ha hb h
    cases b with
    | nil =>
      simp only [List.cons_append, List.nil_append, List.cons.injEq] at h
      have : c ∈ a' :: as := by
        rw [← h.1]
        exact List.mem_cons_self a' as
      exact absurd this ha
    | cons b' bs =>
      simp only [List.cons_append, List.cons.injEq] at h
      obtain ⟨h1, h2⟩ := h
      have ha' : c ∉ as := fun hh => ha (List.mem_cons_of_mem _ hh)
      have hb' : c ∉ bs := fun hh => hb (List.mem_cons_of_mem _ hh)
      obtain ⟨hab, hxy⟩ := ih bs ha' hb' h2
      constructor
      · rw [h1, hab]
      · exact hxy

theorem renderTriple_ne_nil (t : Option (Option EnergyType × Option Int × Nat)) :
    renderTriple t ≠ [] := by
  cases t with
  | none => simp [renderTriple]
  | some tr =>
    obtain ⟨ot, oc, h⟩ := tr
    simp [renderTriple]

theorem renderTriple_cancel {t₁ t₂ : Option (Option EnergyType × Option Int × Nat)}
    {r₁ r₂ : List Char}
    (h : renderTriple t₁ ++ r₁ = renderTriple t₂ ++ r₂) : t₁ = t₂ ∧ r₁ = r₂ := by
  cases t₁ with
  | none =>
    cases t₂ with
    | none =>
      simp only [renderTriple, List.cons_append, List.nil_append, List.cons.injEq] at h
      exact ⟨rfl, h.2⟩
    | some tr =>
      obtain ⟨ot, oc, hh⟩ := tr
      simp only [renderTriple, List.cons_append, List.cons.injEq] at h
      exact absurd h.1 (by decide)
  | some tr₁ =>
    obtain ⟨ot₁, oc₁, h₁⟩ := tr₁
    cases t₂ with
    | none =>
      simp only [renderTriple, List.cons_append, List.cons.injEq] at h
      exact absurd h.1 (by decide)
    | some tr₂ =>
      obtain ⟨ot₂, oc₂, h₂⟩ := tr₂
      simp only [renderTriple, List.cons_append, List.cons.injEq,
        List.append_assoc] at h
      obtain ⟨-, hbody⟩ := h
      obtain ⟨hA, hrest1⟩ := append_mid_inj (fieldTypeChars ot₁) (fieldTypeChars ot₂)
        (comma_not_mem_fieldTypeChars ot₁) (comma_not_mem_fieldTypeChars ot₂) hbody
      obtain ⟨hB, hrest2⟩ := append_mid_inj (fieldCostChars oc₁) (fieldCostChars oc₂)
        (comma_not_mem_fieldCostChars oc₁) (comma_not_mem_fieldCostChars oc₂) hrest1
      obtain ⟨hH, hrest3⟩ := append_mid_inj (natRepr h₁) (natRepr h₂)
        (rparen_not_mem_natRepr h₁) (rparen_not_mem_natRepr h₂) hrest2
      refine ⟨?_, (List.cons.inj hrest3).2⟩
      rw [fieldTypeChars_inj hA, fieldCostChars_inj hB, natRepr_inj hH]

theorem renderTriples_inj :
    ∀ ts us : List (Option (Option EnergyType × Option Int × Nat)),
      List.flatten (ts.map renderTriple) = List.flatten (us.map renderTriple) → ts = us := by
  intro ts
  induction ts with
  | nil =>
    intro us h
    cases us with
    | nil => rfl
    | cons u us =>
      simp only [List.map_nil, List.flatten_nil, List.map_cons, List.flatten_cons] at h
      exact absurd (List.append_eq_nil.mp h.symm).1 (renderTriple_ne_nil u)
  | cons t ts ih =>
    intro us h
    cases us with
    | nil =>
      simp only [List.map_nil, List.flatten_nil, List.map_cons, List.flatten_cons] at h
      exact absurd (List.append_eq_nil.mp h).1 (renderTriple_ne_nil t)
    | cons u us =>
      simp only [List.map_cons, List.flatten_cons] at h
      obtain ⟨h1, h2⟩ := renderTriple_cancel h
      rw [h1, ih us h2]

theorem energyTypeStr_data (oc : Option EnergyCost) :
    (energyTypeStr oc).data = fieldTypeChars (oc.map (·.energyType)) := by
  cases oc <;> rfl

theorem energyCostStr_data (oc : Option EnergyCost) :
    (energyCostStr oc).data = fieldCostChars (oc.map (·.energyCost)) := by
  cases oc <;> rfl

theorem lparen_data : "(".data = ['('] := rfl

theorem comma_data : ",".data = [','] := rfl

theorem rparen_data : ")".data = [')'] := rfl

theorem stringifyMods_step_data (s : String) (om : Option PluggableMod) :
    ((match om with
      | some m =>
        s ++ "(" ++ energyTypeStr m.energyCost ++ "," ++
          energyCostStr m.energyCost ++ "," ++ String.mk (natRepr m.plugCategoryHash) ++ ")"
      | none => s) ++ ",").data = s.data ++ renderTriple (modTriple om) := by
  cases om with
  | none =>
    simp [renderTriple, modTriple, String.data_append, comma_data]
  | some m =>
    simp [String.data_append, renderTriple, modTriple, energyTypeStr_data,
      energyCostStr_data, lparen_data, comma_data, rparen_data, List.append_assoc]

theorem stringifyMods_foldl (p : List (Option PluggableMod)) :
    ∀ s : String,
      (p.foldl
        (fun permutationString modOrNull =>
          (match modOrNull with
           | some m =>
             permutationString ++ "(" ++ energyTypeStr m.energyCost ++ "," ++
               energyCostStr m.energyCost ++ "," ++
               String.mk (natRepr m.plugCategoryHash) ++ ")"
           | none => permutationString) ++ ",") s).data =
      s.data ++ List.flatten ((p.map modTriple).map renderTriple) := by
  induction p with
  | nil =>
    intro s
    simp
  | cons om p ih =>
    intro s
    simp only [List.foldl_cons, List.map_cons, List.flatten_cons]
    rw [ih, stringifyMods_step_data]
    simp [List.append_assoc]

theorem stringifyMods_data (p : List (Option PluggableMod)) :
    (stringifyMods p).data = List.flatten ((p.map modTriple).map renderTriple) := by
  unfold stringifyMods
  rw [stringifyMods_foldl]
  rfl

/-- Claim C8: the canonical deduplication key of `stringifyMods` identifies
two length-5 arrangements exactly when at every position both are empty or
both hold mods with equal `(resource type, resource amount, category tag)`
triples; consequently arrangements differing only by swapping two mods with
identical triples receive the same key (and are collapsed by the
deduplicating generator). -/
theorem stringifyMods_key_iff (p q : List (Option PluggableMod))
    (_hp : p.length = 5) (_hq : q.length = 5) :
    (stringifyMods p = stringifyMods q ↔ p.map modTriple = q.map modTriple) ∧
      ∀ (u v : Option PluggableMod) (l1 l2 l3 : List (Option PluggableMod)),
        modTriple u = modTriple v →
        stringifyMods (l1 ++ u :: l2 ++ v :: l3) =
          stringifyMods (l1 ++ v :: l2 ++ u :: l3) := by
  constructor
  · constructor
    · intro h
      have hd : (stringifyMods p).data = (stringifyMods q).data := by rw [h]
      rw [stringifyMods_data, stringifyMods_data] at hd
      exact renderTriples_inj _ _ hd
    · intro h
      have hd : (stringifyMods p).data = (stringifyMods q).data := by
        rw [stringifyMods_data, stringifyMods_data, h]
      exact String.ext hd
  · intro u v l1 l2 l3 htriple
    apply String.ext
    rw [stringifyMods_data, stringifyMods_data]
    simp [htriple]

/-- Claim C8 (witness): two length-5 arrangements differing only by swapping
two distinct mods (`hash` 600 and 601) that share the triple
`(Thermal, 5, 777)`. -/
theorem stringifyMods_key_iff_witness :
    (arrangementW.length = 5 ∧ arrangementSwappedW.length = 5) ∧
      ((stringifyMods arrangementW = stringifyMods arrangementSwappedW ↔
          arrangementW.map modTriple = arrangementSwappedW.map modTriple) ∧
        ∀ (u v : Option PluggableMod) (l1 l2 l3 : List (Option PluggableMod)),
          modTriple u = modTriple v →
          stringifyMods (l1 ++ u :: l2 ++ v :: l3) =
            stringifyMods (l1 ++ v :: l2 ++ u :: l3)) :=
  ⟨⟨rfl, rfl⟩, stringifyMods_key_iff arrangementW arrangementSwappedW rfl rfl⟩
